import Mathlib

/-!
Shallow embedding of the xo template-orchestration engine
(`templates/templates.go` plus the `gotpl` type declarations).

Modelling conventions:
* `[]byte` buffers are `String`s; concatenation is `++`.
* Go maps (`templates`, `set.files`, `template.FuncMap`) are association
  lists with insert-or-overwrite update (`alistUpdate`); Go map lookups are
  by key only, and every place the source iterates a map it first sorts the
  keys, so association lists keyed the same way are a faithful model.
* Template rendering (`Load`/`Exec`) is I/O against the embedded template
  resource tree; its per-descriptor outcome is passed in as data
  (`Except XErr String`), since the engine treats the rendered bytes as
  opaque.  `Emit` then appends the fragment exactly as the source does.
* The file system under the output directory is a function
  `Disk : String → DiskEntry`; `os.Stat`/`ioutil.ReadFile` in `LoadFile`
  read it (stat errors other than not-exists are not modelled).
* The yaegi interpreter in `AddCustomFuncs` is external I/O; a present
  `funcs.go.tpl` resource is modelled by `FuncsScript`, carrying the
  outcome of each step the source checks in order: evaluating the source
  (opening/reading the resource folded in), looking up `funcs.Init`,
  the type assertion on its signature, and calling it.  Callables are
  opaque (`Nat` tokens) since the engine only stores and merges them.
* `sort.Slice` in `sortEmitted` is modelled by `List.insertionSort` over
  the complement of the source's `less` closure; like Go's algorithm it
  produces a permutation that is sorted for that comparator (Go's sort is
  insertion sort on small slices).
* `Process` mutates `tpl.File` of emitted fragments while merging; the
  model computes the same file name locally and leaves the fragment list's
  `file` fields untouched (nothing reads them afterwards).
* The `AddType` callback, `WriteRaw` and `Errors` are not needed by any
  claim and are omitted.
-/

namespace Xo

/-- Kernel-computable string strict order: `String.lt` coincides with
lexicographic `List.lt` on the underlying character list. -/
def strLt (a b : String) : Bool :=
  decide (a.data < b.data)

theorem strLt_iff (a b : String) : strLt a b = true ↔ a < b := by
  rw [strLt, decide_eq_true_iff, String.lt_iff_toList_lt]
  exact Iff.rfl

/-- Errors produced by the engine.  Fatal error values the source builds
with `fmt.Errorf` get a constructor each; errors coming from external
collaborators (template execution, the interpreter, the file system)
are opaque payloads wrapped by these constructors or carried whole. -/
inductive XErr where
  | unknownTemplate (typ : String)
  | funcsWrap (err : XErr)
  | evalTplFailed (err : XErr)
  | evalInitFailed (err : XErr)
  | initBadSignature
  | initFailed (err : XErr)
  | isDirectory (name : String)
  | postFailed (file : String) (err : XErr)
  | external (msg : String)
deriving DecidableEq

/-- `Template` from templates.go: identifies one template instance.
`Data`/`Extra` are opaque payload (the engine never inspects them). -/
structure Tpl where
  set : String
  template : String
  type : String
  name : String
  data : Nat
  extra : List (String × Nat)
deriving DecidableEq

/-- `EmittedTemplate`: a template together with its rendered content,
resolved file name and per-file error list. -/
structure EmittedTemplate where
  template : Tpl
  buf : String
  file : String
  err : List XErr
deriving DecidableEq

/-- Stand-in for the nil `Template` pointer in the `EmittedTemplate`
values that `Process` creates for file buffers. -/
def emptyTpl : Tpl := ⟨"", "", "", "", 0, []⟩

/-- `xo.Flag`: only its context key matters to the engine. -/
structure Flag where
  contextKey : String
deriving DecidableEq

/-- `xo.FlagSet` as built by `Flags`. -/
structure FlagSet where
  type : String
  name : String
  flag : Flag
deriving DecidableEq

/-- The run configuration context values the engine reads
(`TemplateType`, `Suffix`, `Out`).  `Src` is folded into the
script/render outcomes, `Symbols`/`GenType` are passed through opaquely. -/
structure Ctx where
  templateType : String
  suffix : String
  out : String

/-- One entry of the output directory as seen by `os.Stat`/`ReadFile`. -/
inductive DiskEntry where
  | absent
  | fileEnt (content : String)
  | dirEnt
deriving DecidableEq

/-- The file system under the resolved output paths. -/
abbrev Disk := String → DiskEntry

/-- `template.FuncMap`: names mapped to opaque callables. -/
abbrev FuncMap := List (String × Nat)

/-- Outcomes of the steps `AddCustomFuncs` performs on a present
`funcs.go.tpl` resource, in source order: evaluating the script source
(open/read/parse/eval folded together), evaluating `funcs.Init`
(`some e` = missing or failed lookup), the signature type assertion,
and invoking `Init`. -/
structure FuncsScript where
  evalSrc : Option XErr
  evalInit : Option XErr
  goodShape : Bool
  initRes : Except XErr FuncMap

/-- `TemplateSet`: the long-lived target configuration.  Factory fields
(`HeaderTemplate`, `PackageTemplates`, `Funcs`) are modelled by the value
they produce for this run; rendering outcomes ride along with the
template descriptors they belong to. -/
structure TemplateSet where
  For : Option (List String)
  FileExt : String
  Flags : List Flag
  Order : List String
  HeaderTemplate : Option (Except XErr String)
  PackageTemplates : Option (List (Tpl × Except XErr String))
  Funcs : Option FuncMap
  FileName : Tpl → String
  BuildContext : Option (Ctx → Ctx)
  Post : Option (String → Except XErr String)
  funcsScript : Option FuncsScript

/-- The two run-scoped mutable fields of a `TemplateSet`
(`set.emitted` and `set.files`). -/
structure RunState where
  emitted : List EmittedTemplate
  files : List (String × EmittedTemplate)

/-- Association-list lookup (Go map read). -/
def alistLookup {α : Type} : List (String × α) → String → Option α
  | [], _ => none
  | (k₁, v₁) :: rest, k => if k₁ = k then some v₁ else alistLookup rest k

/-- Association-list insert-or-overwrite (Go map write). -/
def alistUpdate {α : Type} : List (String × α) → String → α → List (String × α)
  | [], k, v => [(k, v)]
  | (k₁, v₁) :: rest, k, v =>
    if k₁ = k then (k, v) :: rest else (k₁, v₁) :: alistUpdate rest k v

/-- `filepath.Join(out, file)` for the single-level joins the engine does. -/
def pathJoin (dir file : String) : String :=
  if dir = "" then file else dir ++ "/" ++ file

/-- `contains` from templates.go. -/
def contains : List String → String → Bool
  | [], _ => false
  | z :: rest, s => if z = s then true else contains rest s

/-- `removeMatching` from templates.go. -/
def removeMatching : List String → List String → List String
  | [], _ => []
  | z :: rest, s =>
    if contains s z then removeMatching rest s else z :: removeMatching rest s

/-- `Register`: stores/overwrites the set under the type name. -/
def Register (reg : List (String × TemplateSet)) (typ : String) (set : TemplateSet) :
    List (String × TemplateSet) :=
  alistUpdate reg typ set

/-- `sort.Strings` (ascending): sorted for the complement of `strLt`. -/
def sortStrings (l : List String) : List String :=
  List.insertionSort (fun a b => strLt b a = false) l

/-- `Types`: sorted names of the registered template sets. -/
def Types (reg : List (String × TemplateSet)) : List String :=
  sortStrings (reg.map Prod.fst)

/-- `For` from templates.go: availability of a template set for a command
name. -/
def For (reg : List (String × TemplateSet)) (typ name : String) : Bool :=
  if name = "dump" then true
  else
    match alistLookup reg typ with
    | some set =>
      match set.For with
      | some l => contains l name
      | none => true
    | none => true

/-- `Flags` from templates.go: walks `Types` in order, skips a set when
`set.For != nil && !contains(set.For, name)`, and appends its flags
tagged with the owning type name. -/
def Flags (reg : List (String × TemplateSet)) (name : String) : List FlagSet :=
  (Types reg).foldl
    (fun acc typ =>
      match alistLookup reg typ with
      | none => acc
      | some set =>
        match set.For with
        | some l =>
          if contains l name = false then acc
          else acc ++ set.Flags.map (fun fl => ⟨typ, fl.contextKey, fl⟩)
        | none => acc ++ set.Flags.map (fun fl => ⟨typ, fl.contextKey, fl⟩))
    []

/-- `BaseFuncs` (sprig's text func map): opaque baseline environment. -/
def BaseFuncs : FuncMap := []

/-- Merging the map returned by `funcs.Init` into the built funcs
(`for k, v := range m { set.funcs[k] = v }`). -/
def fmMerge (funcs m : FuncMap) : FuncMap :=
  m.foldl (fun acc kv => alistUpdate acc kv.1 kv.2) funcs

/-- `TemplateSet.AddCustomFuncs`: no-op when `funcs.go.tpl` is absent;
otherwise the source-ordered cascade of fatal checks, then the merge. -/
def TemplateSet.AddCustomFuncs (set : TemplateSet) (funcs : FuncMap) :
    Except XErr FuncMap :=
  match set.funcsScript with
  | none => Except.ok funcs
  | some s =>
    match s.evalSrc with
    | some e => Except.error (XErr.evalTplFailed e)
    | none =>
      match s.evalInit with
      | some e => Except.error (XErr.evalInitFailed e)
      | none =>
        if s.goodShape = false then Except.error XErr.initBadSignature
        else
          match s.initRes with
          | Except.error e => Except.error (XErr.initFailed e)
          | Except.ok m => Except.ok (fmMerge funcs m)

/-- `TemplateSet.BuildFuncs`: the declared funcs factory, else the
baseline, then `AddCustomFuncs`. -/
def TemplateSet.BuildFuncs (set : TemplateSet) : Except XErr FuncMap :=
  match set.Funcs with
  | none => set.AddCustomFuncs BaseFuncs
  | some m => set.AddCustomFuncs m

/-- `TemplateSet.LoadFile`: seeds a file buffer.  The source's switch:
not-exists or not appending → rendered header (empty if no header
template); a directory (only reachable when appending) → error; else the
on-disk content. -/
def TemplateSet.LoadFile (set : TemplateSet) (disk : Disk) (ctx : Ctx)
    (file : String) (doAppend : Bool) : Except XErr String :=
  if disk (pathJoin ctx.out file) = DiskEntry.absent ∨ doAppend = false then
    match set.HeaderTemplate with
    | none => Except.ok ""
    | some h => h
  else
    match disk (pathJoin ctx.out file) with
    | DiskEntry.dirEnt => Except.error (XErr.isDirectory (pathJoin ctx.out file))
    | DiskEntry.fileEnt c => Except.ok c
    | DiskEntry.absent => Except.ok ""

/-- A sequence of `set.Emit` calls: each executes its template (outcome
supplied) and appends the fragment; the first failure aborts. -/
def runEmits (gen : List (Tpl × Except XErr String))
    (emitted : List EmittedTemplate) : List EmittedTemplate × Option XErr :=
  match gen with
  | [] => (emitted, none)
  | (tpl, out) :: rest =>
    match out with
    | Except.error e => (emitted, some e)
    | Except.ok buf => runEmits rest (emitted ++ [⟨tpl, buf, "", []⟩])

/-- The `less` closure of `sortEmitted` in templates.go. -/
def tplLess (a b : Tpl) : Bool :=
  if a.template ≠ b.template then strLt a.template b.template
  else if a.type ≠ b.type then strLt a.type b.type
  else strLt a.name b.name

/-- The non-strict sort relation induced by `sortEmitted`'s comparator. -/
def emLe (a b : EmittedTemplate) : Prop :=
  tplLess b.template a.template = false

instance : DecidableRel emLe := fun a b =>
  inferInstanceAs (Decidable (tplLess b.template a.template = false))

/-- `sortEmitted`: sorts the emitted fragments by
(template name, type, instance name). -/
def sortEmitted (tpl : List EmittedTemplate) : List EmittedTemplate :=
  List.insertionSort emLe tpl

/-- The sort key of a fragment as a lexicographic triple. -/
def tplKey (t : Tpl) : Lex (String × Lex (String × String)) :=
  toLex (t.template, toLex (t.type, t.name))

/-- The file extension used for a fragment: the context suffix if set,
else the set's `FileExt`. -/
def fileExtOf (set : TemplateSet) (ctx : Ctx) : String :=
  if ctx.suffix ≠ "" then ctx.suffix else set.FileExt

/-- The output file a fragment resolves to: the single-file override if
set, else `set.FileName` plus the resolved extension. -/
def fileOf (set : TemplateSet) (ctx : Ctx) (single : String) (t : Tpl) : String :=
  if single ≠ "" then single else set.FileName t ++ fileExtOf set ctx

/-- The file-buffer map under construction plus the trace of output-dir
paths that `LoadFile` stat'ed/read (the run's only file-system reads). -/
structure MergeSt where
  files : List (String × EmittedTemplate)
  reads : List String
deriving DecidableEq

/-- The body of the merge loop for one fragment: resolve its file, seed
the buffer through `LoadFile` on first use, then append the bytes. -/
def mergeOne (set : TemplateSet) (disk : Disk) (ctx : Ctx) (single : String)
    (doAppend : Bool) (st : MergeSt) (t : EmittedTemplate) : MergeSt × Option XErr :=
  match alistLookup st.files (fileOf set ctx single t.template) with
  | some fe =>
    (⟨alistUpdate st.files (fileOf set ctx single t.template)
        ⟨fe.template, fe.buf ++ t.buf, fe.file, fe.err⟩,
      st.reads⟩, none)
  | none =>
    match set.LoadFile disk ctx (fileOf set ctx single t.template) doAppend with
    | Except.error e =>
      (⟨st.files, st.reads ++ [pathJoin ctx.out (fileOf set ctx single t.template)]⟩, some e)
    | Except.ok b =>
      (⟨alistUpdate st.files (fileOf set ctx single t.template)
          ⟨emptyTpl, b ++ t.buf, fileOf set ctx single t.template, []⟩,
        st.reads ++ [pathJoin ctx.out (fileOf set ctx single t.template)]⟩, none)

/-- The inner merge loop over the fragments matching one template name. -/
def mergeList (set : TemplateSet) (disk : Disk) (ctx : Ctx) (single : String)
    (doAppend : Bool) : List EmittedTemplate → MergeSt → MergeSt × Option XErr
  | [], st => (st, none)
  | t :: ts, st =>
    match mergeOne set disk ctx single doAppend st t with
    | (st₁, some e) => (st₁, some e)
    | (st₁, none) => mergeList set disk ctx single doAppend ts st₁

/-- The outer merge loop of `Process`: for each name of the processing
order, in order, the fragments whose template name matches it. -/
def mergeOrder (set : TemplateSet) (disk : Disk) (ctx : Ctx) (single : String)
    (doAppend : Bool) (emitted : List EmittedTemplate) :
    List String → MergeSt → MergeSt × Option XErr
  | [], st => (st, none)
  | n :: ns, st =>
    match mergeList set disk ctx single doAppend
        (emitted.filter (fun t => t.template.template == n)) st with
    | (st₁, some e) => (st₁, some e)
    | (st₁, none) => mergeOrder set disk ctx single doAppend emitted ns st₁

/-- Everything `Process` returns and mutates: the error result, the two
run-scoped fields, the read trace, and the funcs the run built. -/
structure ProcOut where
  result : Option XErr
  emitted : List EmittedTemplate
  files : List (String × EmittedTemplate)
  reads : List String
  funcs : Option FuncMap
deriving DecidableEq

/-- The package-template step of `Process`: when not appending and
package templates are declared, emit each of them (appending to the
already-sorted fragment list). -/
def pkgOutcome (set : TemplateSet) (doAppend : Bool)
    (sorted : List EmittedTemplate) : List EmittedTemplate × Option XErr :=
  match doAppend, set.PackageTemplates with
  | false, some pts => runEmits pts sorted
  | _, _ => (sorted, none)

/-- The final processing order of `Process`: the base order, or the
package-template names prepended and removed from the base order. -/
def finalOrder (set : TemplateSet) (doAppend : Bool) : List String :=
  match doAppend, set.PackageTemplates with
  | false, some pts =>
    let additional := pts.map (fun p => p.1.template)
    additional ++ removeMatching set.Order additional
  | _, _ => set.Order

/-- Steps 5–7 of `Process` (after the generation logic ran): sort the
emitted fragments, emit package templates and compute the final order,
reset the file map and merge.  On a fatal error the file map keeps its
previous value (the source resets it only at the merge step). -/
def processFromEmitted (set : TemplateSet) (disk : Disk) (ctx : Ctx)
    (doAppend : Bool) (single : String) (emitted₁ : List EmittedTemplate)
    (files₀ : List (String × EmittedTemplate)) (funcs : FuncMap) : ProcOut :=
  match pkgOutcome set doAppend (sortEmitted emitted₁) with
  | (em₂, some e) => ⟨some e, em₂, files₀, [], some funcs⟩
  | (em₂, none) =>
    match mergeOrder set disk ctx single doAppend em₂
        (finalOrder set doAppend) ⟨[], []⟩ with
    | (m, err) => ⟨err, em₂, m.files, m.reads, some funcs⟩

/-- The context-enrichment hook application at the top of `Process`. -/
def ctxOf (set : TemplateSet) (ctx₀ : Ctx) : Ctx :=
  match set.BuildContext with
  | none => ctx₀
  | some f => f ctx₀

/-- `Process` for a resolved template set: enrich the context, build the
funcs (fatal on error, wrapped), run the target's generation logic
(`gen` is the sequence of `Emit` calls it makes), then the merge stages. -/
def processSet (set : TemplateSet) (disk : Disk) (ctx₀ : Ctx) (doAppend : Bool)
    (single : String) (gen : List (Tpl × Except XErr String)) (st₀ : RunState) :
    ProcOut :=
  match set.BuildFuncs with
  | Except.error e => ⟨some (XErr.funcsWrap e), st₀.emitted, st₀.files, [], none⟩
  | Except.ok funcs =>
    match runEmits gen st₀.emitted with
    | (em₁, some e) => ⟨some e, em₁, st₀.files, [], some funcs⟩
    | (em₁, none) =>
      processFromEmitted set disk (ctxOf set ctx₀) doAppend single em₁ st₀.files funcs

/-- `Process` from templates.go: resolve the template set by the context's
template type, failing with "unknown template" when absent. -/
def Process (reg : List (String × TemplateSet)) (disk : Disk) (ctx : Ctx)
    (doAppend : Bool) (single : String) (gen : List (Tpl × Except XErr String))
    (st₀ : RunState) : ProcOut :=
  match alistLookup reg ctx.templateType with
  | none => ⟨some (XErr.unknownTemplate ctx.templateType), st₀.emitted, st₀.files, [], none⟩
  | some set => processSet set disk ctx doAppend single gen st₀

/-- Outcome of writing one path+content to the output directory
(`ioutil.WriteFile`): `none` is success. -/
abbrev DiskW := String → String → Option XErr

/-- What `Write`/`WriteFiles` return and produce: the fatal result, the
updated file map, and the successfully persisted (path, content) pairs. -/
structure WriteOut where
  result : Option XErr
  files : List (String × EmittedTemplate)
  written : List (String × String)
deriving DecidableEq

/-- The post-processing loop of `Write` over the sorted file names: a
hook failure is appended to that file's error list and its buffer kept;
success replaces the buffer. -/
def postFiles (post : String → Except XErr String) :
    List String → List (String × EmittedTemplate) → List (String × EmittedTemplate)
  | [], files => files
  | f :: rest, files =>
    match alistLookup files f with
    | none => postFiles post rest files
    | some fe =>
      match post fe.buf with
      | Except.error e =>
        postFiles post rest
          (alistUpdate files f ⟨fe.template, fe.buf, fe.file, fe.err ++ [XErr.postFailed f e]⟩)
      | Except.ok b =>
        postFiles post rest (alistUpdate files f ⟨fe.template, b, fe.file, fe.err⟩)

/-- The write loop of `WriteFiles` over the sorted file names: a write
failure is appended to that file's error list; the loop never aborts. -/
def writeFilesLoop (wr : DiskW) (out : String) :
    List String → List (String × EmittedTemplate) → List (String × String) →
    List (String × EmittedTemplate) × List (String × String)
  | [], files, written => (files, written)
  | f :: rest, files, written =>
    match alistLookup files f with
    | none => writeFilesLoop wr out rest files written
    | some fe =>
      match wr (pathJoin out f) fe.buf with
      | some e =>
        writeFilesLoop wr out rest
          (alistUpdate files f ⟨fe.template, fe.buf, fe.file, fe.err ++ [e]⟩) written
      | none => writeFilesLoop wr out rest files (written ++ [(pathJoin out f, fe.buf)])

/-- `WriteFiles` from templates.go. -/
def WriteFiles (reg : List (String × TemplateSet)) (ctx : Ctx) (wr : DiskW)
    (files : List (String × EmittedTemplate)) : WriteOut :=
  match alistLookup reg ctx.templateType with
  | none => ⟨some (XErr.unknownTemplate ctx.templateType), files, []⟩
  | some _ =>
    match writeFilesLoop wr ctx.out (sortStrings (files.map Prod.fst)) files [] with
    | (files₁, written) => ⟨none, files₁, written⟩

/-- `Write` from templates.go: post-process each file buffer when a hook
is declared, then delegate to `WriteFiles`. -/
def Write (reg : List (String × TemplateSet)) (ctx : Ctx) (wr : DiskW)
    (files : List (String × EmittedTemplate)) : WriteOut :=
  match alistLookup reg ctx.templateType with
  | none => ⟨some (XErr.unknownTemplate ctx.templateType), files, []⟩
  | some set =>
    match set.Post with
    | none => WriteFiles reg ctx wr files
    | some p =>
      WriteFiles reg ctx wr (postFiles p (sortStrings (files.map Prod.fst)) files)

/-- Everything one run depends on: registry, file system, write effects,
context values, mode flags, the generation logic's emission sequence and
the target configuration's starting run state. -/
structure RunInputs where
  reg : List (String × TemplateSet)
  disk : Disk
  wr : DiskW
  ctx : Ctx
  doAppend : Bool
  single : String
  gen : List (Tpl × Except XErr String)
  st₀ : RunState

/-- One complete run: `Process`, then (on success) `Write` on the file
buffers it produced. -/
def runPipeline (i : RunInputs) : ProcOut × Option WriteOut :=
  let p := Process i.reg i.disk i.ctx i.doAppend i.single i.gen i.st₀
  match p.result with
  | some _ => (p, none)
  | none => (p, some (Write i.reg i.ctx i.wr p.files))

end Xo

namespace Xo

/-! ### Association-list facts -/

theorem alistLookup_update_self {α : Type} (m : List (String × α)) (k : String) (v : α) :
    alistLookup (alistUpdate m k v) k = some v := by
  induction m with
  | nil => simp [alistUpdate, alistLookup]
  | cons kv rest ih =>
    by_cases h : kv.1 = k
    · simp [alistUpdate, alistLookup, h]
    · simp [alistUpdate, alistLookup, h, ih]

theorem alistLookup_update_ne {α : Type} (m : List (String × α)) (k k' : String) (v : α)
    (h : k ≠ k') : alistLookup (alistUpdate m k v) k' = alistLookup m k' := by
  induction m with
  | nil => simp [alistUpdate, alistLookup, h]
  | cons kv rest ih =>
    by_cases h₁ : kv.1 = k
    · simp [alistUpdate, alistLookup, h₁, h]
    · by_cases h₂ : kv.1 = k'
      · simp [alistUpdate, alistLookup, h₁, h₂, Ne.symm h]
      · simp [alistUpdate, alistLookup, h₁, h₂, ih]

theorem alistLookup_some_mem_keys {α : Type} (m : List (String × α)) (k : String) (v : α)
    (h : alistLookup m k = some v) : k ∈ m.map Prod.fst := by
  induction m with
  | nil => simp [alistLookup] at h
  | cons kv rest ih =>
    by_cases h₁ : kv.1 = k
    · simp [h₁]
    · simp [alistLookup, h₁] at h
      simp [ih h]

theorem alistLookup_none_of_not_mem {α : Type} (m : List (String × α)) (k : String)
    (h : k ∉ m.map Prod.fst) : alistLookup m k = none := by
  induction m with
  | nil => rfl
  | cons kv rest ih =>
    simp only [List.map_cons, List.mem_cons] at h
    push_neg at h
    simp [alistLookup, Ne.symm h.1, ih h.2]

theorem alistUpdate_keys_of_mem {α : Type} (m : List (String × α)) (k : String) (v v' : α)
    (h : alistLookup m k = some v') :
    (alistUpdate m k v).map Prod.fst = m.map Prod.fst := by
  induction m with
  | nil => simp [alistLookup] at h
  | cons kv rest ih =>
    by_cases h₁ : kv.1 = k
    · simp [alistUpdate, h₁]
    · simp only [alistLookup, h₁, if_false] at h
      simp [alistUpdate, h₁, ih h]

/-! ### The sort key as a linear order -/

theorem tplKey_lt_iff (a b : Tpl) :
    tplKey a < tplKey b ↔
      a.template < b.template ∨ a.template = b.template ∧
        (a.type < b.type ∨ a.type = b.type ∧ a.name < b.name) := by
  rw [tplKey, tplKey, Prod.Lex.lt_iff, Prod.Lex.lt_iff]

theorem tplLess_eq_true_iff (a b : Tpl) :
    tplLess a b = true ↔ tplKey a < tplKey b := by
  rw [tplKey_lt_iff, tplLess]
  by_cases h₁ : a.template = b.template
  · by_cases h₂ : a.type = b.type
    · simp [h₁, h₂, strLt_iff, lt_irrefl]
    · simp [h₁, h₂, strLt_iff, lt_irrefl]
  · simp [h₁, strLt_iff]

theorem emLe_iff (a b : EmittedTemplate) :
    emLe a b ↔ tplKey a.template ≤ tplKey b.template := by
  rw [emLe, ← not_lt, ← tplLess_eq_true_iff]
  simp

instance : IsTotal EmittedTemplate emLe :=
  ⟨fun a b => by rw [emLe_iff, emLe_iff]; exact le_total _ _⟩

instance : IsTrans EmittedTemplate emLe :=
  ⟨fun a b c h₁ h₂ => by
    rw [emLe_iff] at h₁ h₂ ⊢
    exact le_trans h₁ h₂⟩

theorem sortEmitted_sorted (l : List EmittedTemplate) :
    List.Sorted emLe (sortEmitted l) :=
  List.sorted_insertionSort emLe l

theorem sortEmitted_perm (l : List EmittedTemplate) :
    (sortEmitted l).Perm l :=
  List.perm_insertionSort emLe l

/-- Two sorted permutations of each other with pairwise-distinct sort
keys are equal: the merge result is determined by the fragment multiset. -/
theorem sorted_perm_nodupKeys_eq :
    ∀ (l₁ l₂ : List EmittedTemplate), l₁.Perm l₂ →
      List.Sorted emLe l₁ → List.Sorted emLe l₂ →
      (l₁.map (fun t => tplKey t.template)).Nodup → l₁ = l₂
  | [], l₂, hp, _, _, _ => (hp.symm.eq_nil).symm ▸ rfl
  | a :: t₁, [], hp, _, _, _ => absurd hp.eq_nil (by simp)
  | a :: t₁, b :: t₂, hp, hs₁, hs₂, hn => by
    have hab : a = b := by
      by_contra hne
      have ha2 : a ∈ t₂ := by
        have := hp.mem_iff.mp (List.mem_cons_self a t₁)
        simpa [hne] using this
      have hb1 : b ∈ t₁ := by
        have := hp.symm.mem_iff.mp (List.mem_cons_self b t₂)
        simpa [Ne.symm hne] using this
      have h₁ab : emLe a b := (List.sorted_cons.mp hs₁).1 b hb1
      have h₂ba : emLe b a := (List.sorted_cons.mp hs₂).1 a ha2
      have hkey : tplKey a.template = tplKey b.template :=
        le_antisymm ((emLe_iff a b).mp h₁ab) ((emLe_iff b a).mp h₂ba)
      have hmem : tplKey b.template ∈ t₁.map (fun t => tplKey t.template) :=
        List.mem_map_of_mem _ hb1
      have hnot : tplKey a.template ∉ t₁.map (fun t => tplKey t.template) :=
        (List.nodup_cons.mp (by simpa using hn)).1
      exact hnot (hkey ▸ hmem)
    subst hab
    have ht : t₁ = t₂ :=
      sorted_perm_nodupKeys_eq t₁ t₂ hp.cons_inv
        (List.sorted_cons.mp hs₁).2 (List.sorted_cons.mp hs₂).2
        (List.nodup_cons.mp (by simpa using hn)).2
    rw [ht]

theorem sortEmitted_eq_of_perm (l₁ l₂ : List EmittedTemplate) (hp : l₁.Perm l₂)
    (hn : (l₁.map (fun t => tplKey t.template)).Nodup) :
    sortEmitted l₁ = sortEmitted l₂ := by
  refine sorted_perm_nodupKeys_eq _ _ ?_ (sortEmitted_sorted l₁) (sortEmitted_sorted l₂) ?_
  · exact (sortEmitted_perm l₁).trans (hp.trans (sortEmitted_perm l₂).symm)
  · exact ((sortEmitted_perm l₁).map (fun t => tplKey t.template)).nodup_iff.mpr hn

end Xo

namespace Xo

/-! ### Stability of the fragment sort under filtering -/

theorem orderedInsert_eq_cons (a : EmittedTemplate) (l : List EmittedTemplate)
    (h : ∀ c ∈ l, emLe a c) : List.orderedInsert emLe a l = a :: l := by
  cases l with
  | nil => rfl
  | cons b l => exact List.orderedInsert_of_le emLe l (h b (List.mem_cons_self b l))

theorem filter_orderedInsert (p : EmittedTemplate → Bool) (a : EmittedTemplate) :
    ∀ (l : List EmittedTemplate), List.Sorted emLe l →
      (List.orderedInsert emLe a l).filter p =
        if p a then List.orderedInsert emLe a (l.filter p) else l.filter p
  | [], _ => by by_cases hpa : p a <;> simp [hpa]
  | b :: l, hs => by
    have hsl : List.Sorted emLe l := (List.sorted_cons.mp hs).2
    by_cases hab : emLe a b
    · rw [List.orderedInsert_of_le emLe l hab]
      by_cases hpa : p a
      · rw [if_pos hpa, orderedInsert_eq_cons a ((b :: l).filter p) ?_]
        · simp [List.filter_cons, hpa]
        · intro c hc
          have hc' : c ∈ b :: l := List.mem_of_mem_filter hc
          rcases List.mem_cons.mp hc' with rfl | hcl
          · exact hab
          · exact trans_of emLe hab ((List.sorted_cons.mp hs).1 c hcl)
      · rw [if_neg hpa]
        simp [List.filter_cons, hpa]
    · have hrec := filter_orderedInsert p a l hsl
      by_cases hpa : p a <;> by_cases hpb : p b <;>
        simp [List.filter_cons, List.orderedInsert, hab, hpa, hpb, hrec]

theorem filter_insertionSort (p : EmittedTemplate → Bool) (l : List EmittedTemplate) :
    (List.insertionSort emLe l).filter p = List.insertionSort emLe (l.filter p) := by
  induction l with
  | nil => rfl
  | cons a l ih =>
    rw [List.insertionSort,
      filter_orderedInsert p a _ (List.sorted_insertionSort emLe l), ih]
    by_cases hpa : p a <;> simp [List.filter_cons, hpa, List.insertionSort]

theorem sortEmitted_filter (p : EmittedTemplate → Bool) (l : List EmittedTemplate) :
    (sortEmitted l).filter p = sortEmitted (l.filter p) :=
  filter_insertionSort p l

/-! ### The merge loop as a declarative description -/

/-- Concatenation of the rendered bytes of a fragment list. -/
def bufConcat : List EmittedTemplate → String
  | [] => ""
  | t :: ts => t.buf ++ bufConcat ts

theorem bufConcat_append (xs ys : List EmittedTemplate) :
    bufConcat (xs ++ ys) = bufConcat xs ++ bufConcat ys := by
  induction xs with
  | nil => simp [bufConcat]
  | cons t ts ih => simp [bufConcat, ih, String.append_assoc]

/-- The fragments the merge loop visits, flattened: for each name of the
processing order, in order, the fragments whose template name matches. -/
def flatFrags (emitted : List EmittedTemplate) : List String → List EmittedTemplate
  | [] => []
  | n :: ns => emitted.filter (fun t => t.template.template == n) ++ flatFrags emitted ns

/-- The fragments of a visit sequence that resolve to one output file. -/
def fragsFor (set : TemplateSet) (ctx : Ctx) (single : String) (f : String)
    (frags : List EmittedTemplate) : List EmittedTemplate :=
  frags.filter (fun t => fileOf set ctx single t.template == f)

theorem fragsFor_append (set : TemplateSet) (ctx : Ctx) (single : String) (f : String)
    (xs ys : List EmittedTemplate) :
    fragsFor set ctx single f (xs ++ ys) =
      fragsFor set ctx single f xs ++ fragsFor set ctx single f ys := by
  simp [fragsFor]

theorem mergeList_append_ok (set : TemplateSet) (disk : Disk) (ctx : Ctx)
    (single : String) (ap : Bool) (xs ys : List EmittedTemplate) (st st₁ : MergeSt)
    (h : mergeList set disk ctx single ap xs st = (st₁, none)) :
    mergeList set disk ctx single ap (xs ++ ys) st =
      mergeList set disk ctx single ap ys st₁ := by
  induction xs generalizing st with
  | nil =>
    simp only [mergeList] at h
    cases h
    rfl
  | cons t ts ih =>
    simp only [List.cons_append, mergeList] at h ⊢
    rcases hm : mergeOne set disk ctx single ap st t with ⟨st₂, err⟩
    rw [hm] at h
    cases err with
    | some e => simp at h
    | none => exact ih _ h

theorem mergeList_append_err (set : TemplateSet) (disk : Disk) (ctx : Ctx)
    (single : String) (ap : Bool) (xs ys : List EmittedTemplate) (st st₁ : MergeSt)
    (e : XErr) (h : mergeList set disk ctx single ap xs st = (st₁, some e)) :
    mergeList set disk ctx single ap (xs ++ ys) st = (st₁, some e) := by
  induction xs generalizing st with
  | nil => simp [mergeList] at h
  | cons t ts ih =>
    simp only [List.cons_append, mergeList] at h ⊢
    rcases hm : mergeOne set disk ctx single ap st t with ⟨st₂, err⟩
    rw [hm] at h
    cases err with
    | some e' => exact h
    | none => exact ih _ h

/-- The nested merge loops equal one pass over the flattened visit
sequence. -/
theorem mergeOrder_eq_mergeList (set : TemplateSet) (disk : Disk) (ctx : Ctx)
    (single : String) (ap : Bool) (em : List EmittedTemplate) :
    ∀ (order : List String) (st : MergeSt),
      mergeOrder set disk ctx single ap em order st =
        mergeList set disk ctx single ap (flatFrags em order) st
  | [], st => rfl
  | n :: ns, st => by
    simp only [mergeOrder, flatFrags]
    rcases hr : mergeList set disk ctx single ap
        (em.filter (fun t => t.template.template == n)) st with ⟨st₁, err⟩
    cases err with
    | some e =>
      rw [mergeList_append_err set disk ctx single ap _ _ st st₁ e hr]
    | none =>
      have hrec := mergeOrder_eq_mergeList set disk ctx single ap em ns st₁
      rw [mergeList_append_ok set disk ctx single ap _ _ st st₁ hr]
      exact hrec

end Xo

namespace Xo

theorem strAppend_assoc (a b c : String) : a ++ b ++ c = a ++ (b ++ c) := by
  apply String.ext
  simp [String.data_append]

theorem strAppend_empty (a : String) : a ++ "" = a := by
  apply String.ext
  simp [String.data_append]

theorem fragsFor_cons_eq (set : TemplateSet) (ctx : Ctx) (single f : String)
    (t : EmittedTemplate) (ts : List EmittedTemplate)
    (h : fileOf set ctx single t.template = f) :
    fragsFor set ctx single f (t :: ts) = t :: fragsFor set ctx single f ts := by
  simp [fragsFor, List.filter_cons, h]

theorem fragsFor_cons_ne (set : TemplateSet) (ctx : Ctx) (single f : String)
    (t : EmittedTemplate) (ts : List EmittedTemplate)
    (h : fileOf set ctx single t.template ≠ f) :
    fragsFor set ctx single f (t :: ts) = fragsFor set ctx single f ts := by
  simp [fragsFor, List.filter_cons, h]

end Xo

namespace Xo

/-- What one pass of the merge loop does to each file buffer: a buffer
already present grows by the bytes of the fragments resolving to it; a
buffer not yet present is created exactly when some fragment resolves to
it, seeded by `LoadFile` (which must then have succeeded) and extended by
those fragments' bytes in visit order. -/
theorem mergeList_lookup (set : TemplateSet) (disk : Disk) (ctx : Ctx) (single : String)
    (ap : Bool) (frags : List EmittedTemplate) :
    ∀ (st st' : MergeSt), mergeList set disk ctx single ap frags st = (st', none) →
      ∀ f : String,
        (∀ fe, alistLookup st.files f = some fe →
          alistLookup st'.files f =
            some ⟨fe.template, fe.buf ++ bufConcat (fragsFor set ctx single f frags),
              fe.file, fe.err⟩) ∧
        (alistLookup st.files f = none →
          (fragsFor set ctx single f frags = [] ∧ alistLookup st'.files f = none) ∨
          (∃ s, set.LoadFile disk ctx f ap = Except.ok s ∧
            fragsFor set ctx single f frags ≠ [] ∧
            alistLookup st'.files f =
              some ⟨emptyTpl, s ++ bufConcat (fragsFor set ctx single f frags), f, []⟩)) := by
  induction frags with
  | nil =>
    intro st st' h f
    simp only [mergeList] at h
    cases h
    constructor
    · intro fe hfe
      simpa [fragsFor, bufConcat, strAppend_empty] using hfe
    · intro hnone
      left
      exact ⟨rfl, hnone⟩
  | cons t ts ih =>
    intro st st' h f
    simp only [mergeList] at h
    rcases hm : mergeOne set disk ctx single ap st t with ⟨st₂, err⟩
    rw [hm] at h
    simp only [mergeOne] at hm
    cases err with
    | some e => simp at h
    | none =>
      rcases hl : alistLookup st.files (fileOf set ctx single t.template) with _ | fe
      · -- file not seen yet: LoadFile seeds it
        rw [hl] at hm
        rcases hL : set.LoadFile disk ctx (fileOf set ctx single t.template) ap with e | b
        · rw [hL] at hm
          simp at hm
        · rw [hL] at hm
          simp only [Prod.mk.injEq] at hm
          have hst₂ : st₂ = ⟨alistUpdate st.files (fileOf set ctx single t.template)
              ⟨emptyTpl, b ++ t.buf, fileOf set ctx single t.template, []⟩,
            st.reads ++ [pathJoin ctx.out (fileOf set ctx single t.template)]⟩ :=
            hm.1.symm
          constructor
          · intro fe₀ hfe₀
            have hf : f ≠ fileOf set ctx single t.template := by
              intro heq
              rw [heq, hl] at hfe₀
              cases hfe₀
            have hlk : alistLookup st₂.files f = some fe₀ := by
              rw [hst₂]
              simpa [alistLookup_update_ne _ _ _ _ (Ne.symm hf)] using hfe₀
            have := (ih st₂ st' h f).1 fe₀ hlk
            rwa [fragsFor_cons_ne set ctx single f t ts (Ne.symm hf)]
          · intro hnone
            by_cases hf : f = fileOf set ctx single t.template
            · right
              rw [← hf] at hL hst₂
              refine ⟨b, hL, ?_, ?_⟩
              · rw [fragsFor_cons_eq set ctx single f t ts hf.symm]
                simp
              · have hlk : alistLookup st₂.files f =
                    some ⟨emptyTpl, b ++ t.buf, f, []⟩ := by
                  rw [hst₂]
                  exact alistLookup_update_self _ _ _
                have := (ih st₂ st' h f).1 _ hlk
                rw [fragsFor_cons_eq set ctx single f t ts hf.symm, bufConcat,
                  ← strAppend_assoc]
                exact this
            · have hlk : alistLookup st₂.files f = none := by
                rw [hst₂]
                rw [alistLookup_update_ne _ _ _ _ (Ne.symm hf)]
                exact hnone
              have := (ih st₂ st' h f).2 hlk
              rwa [fragsFor_cons_ne set ctx single f t ts (Ne.symm hf)]
      · -- file already has a buffer: append
        rw [hl] at hm
        simp only [Prod.mk.injEq] at hm
        have hst₂ : st₂ = ⟨alistUpdate st.files (fileOf set ctx single t.template)
            ⟨fe.template, fe.buf ++ t.buf, fe.file, fe.err⟩, st.reads⟩ :=
          hm.1.symm
        constructor
        · intro fe₀ hfe₀
          by_cases hf : f = fileOf set ctx single t.template
          · have hfe : fe₀ = fe := by
              rw [hf, hl] at hfe₀
              cases hfe₀
              rfl
            rw [← hf] at hst₂
            have hlk : alistLookup st₂.files f =
                some ⟨fe.template, fe.buf ++ t.buf, fe.file, fe.err⟩ := by
              rw [hst₂]
              exact alistLookup_update_self _ _ _
            have := (ih st₂ st' h f).1 _ hlk
            rw [hfe, fragsFor_cons_eq set ctx single f t ts hf.symm, bufConcat,
              ← strAppend_assoc]
            exact this
          · have hlk : alistLookup st₂.files f = some fe₀ := by
              rw [hst₂]
              simpa [alistLookup_update_ne _ _ _ _ (Ne.symm hf)] using hfe₀
            have := (ih st₂ st' h f).1 fe₀ hlk
            rwa [fragsFor_cons_ne set ctx single f t ts (Ne.symm hf)]
        · intro hnone
          have hf : f ≠ fileOf set ctx single t.template := by
            intro heq
            rw [heq, hl] at hnone
            cases hnone
          have hlk : alistLookup st₂.files f = none := by
            rw [hst₂]
            rw [alistLookup_update_ne _ _ _ _ (Ne.symm hf)]
            exact hnone
          have := (ih st₂ st' h f).2 hlk
          rwa [fragsFor_cons_ne set ctx single f t ts (Ne.symm hf)]

end Xo

namespace Xo

/-- The merge stage of `Process` starting from the freshly reset file
map: a file buffer exists exactly for the files some visited fragment
resolves to, and then holds the `LoadFile` seed followed by the bytes of
its fragments in visit order. -/
theorem mergeOrder_lookup (set : TemplateSet) (disk : Disk) (ctx : Ctx) (single : String)
    (ap : Bool) (em : List EmittedTemplate) (order : List String) (st' : MergeSt)
    (h : mergeOrder set disk ctx single ap em order ⟨[], []⟩ = (st', none)) (f : String) :
    (fragsFor set ctx single f (flatFrags em order) = [] →
      alistLookup st'.files f = none) ∧
    (fragsFor set ctx single f (flatFrags em order) ≠ [] →
      ∃ s, set.LoadFile disk ctx f ap = Except.ok s ∧
        alistLookup st'.files f =
          some ⟨emptyTpl,
            s ++ bufConcat (fragsFor set ctx single f (flatFrags em order)), f, []⟩) := by
  rw [mergeOrder_eq_mergeList] at h
  have H := (mergeList_lookup set disk ctx single ap (flatFrags em order) ⟨[], []⟩ st' h f).2 rfl
  constructor
  · intro hnil
    rcases H with ⟨_, h₂⟩ | ⟨s, _, hne, _⟩
    · exact h₂
    · exact absurd hnil hne
  · intro hne
    rcases H with ⟨hnil, _⟩ | ⟨s, hL, _, hlk⟩
    · exact absurd hnil hne
    · exact ⟨s, hL, hlk⟩

/-- The fragment list the merge loop of `Process` iterates: the sorted
emitted fragments with the package-template fragments appended. -/
def mergedEmitted (set : TemplateSet) (ap : Bool) (em : List EmittedTemplate) :
    List EmittedTemplate :=
  (pkgOutcome set ap (sortEmitted em)).1

/-- Successful runs of the post-generation stages factor through a
successful merge over `mergedEmitted` and `finalOrder`. -/
theorem processFromEmitted_ok (set : TemplateSet) (disk : Disk) (ctx : Ctx) (ap : Bool)
    (single : String) (em : List EmittedTemplate)
    (files₀ : List (String × EmittedTemplate)) (funcs : FuncMap)
    (h : (processFromEmitted set disk ctx ap single em files₀ funcs).result = none) :
    ∃ st', mergeOrder set disk ctx single ap (mergedEmitted set ap em)
        (finalOrder set ap) ⟨[], []⟩ = (st', none) ∧
      (processFromEmitted set disk ctx ap single em files₀ funcs).files = st'.files ∧
      (processFromEmitted set disk ctx ap single em files₀ funcs).emitted =
        mergedEmitted set ap em ∧
      (processFromEmitted set disk ctx ap single em files₀ funcs).reads = st'.reads := by
  rcases hp : pkgOutcome set ap (sortEmitted em) with ⟨em₂, perr⟩
  have hme : mergedEmitted set ap em = em₂ := by rw [mergedEmitted, hp]
  cases perr with
  | some e =>
    exfalso
    unfold processFromEmitted at h
    rw [hp] at h
    simp at h
  | none =>
    have heq : processFromEmitted set disk ctx ap single em files₀ funcs =
        ⟨(mergeOrder set disk ctx single ap em₂ (finalOrder set ap) ⟨[], []⟩).2,
          em₂,
          (mergeOrder set disk ctx single ap em₂ (finalOrder set ap) ⟨[], []⟩).1.files,
          (mergeOrder set disk ctx single ap em₂ (finalOrder set ap) ⟨[], []⟩).1.reads,
          some funcs⟩ := by
      unfold processFromEmitted
      rw [hp]
    rw [hme, heq]
    rw [heq] at h
    rcases hm : mergeOrder set disk ctx single ap em₂ (finalOrder set ap) ⟨[], []⟩
      with ⟨st', merr⟩
    cases merr with
    | some e =>
      rw [hm] at h
      simp at h
    | none => exact ⟨st', rfl, rfl, rfl, rfl⟩

/-- Successful runs of `processSet` factor through a successful funcs
build and a successful generation pass. -/
theorem processSet_ok (set : TemplateSet) (disk : Disk) (ctx₀ : Ctx) (ap : Bool)
    (single : String) (gen : List (Tpl × Except XErr String)) (st₀ : RunState)
    (h : (processSet set disk ctx₀ ap single gen st₀).result = none) :
    ∃ funcs em₁, set.BuildFuncs = Except.ok funcs ∧
      runEmits gen st₀.emitted = (em₁, none) ∧
      processSet set disk ctx₀ ap single gen st₀ =
        processFromEmitted set disk (ctxOf set ctx₀) ap single em₁ st₀.files funcs := by
  rcases hb : set.BuildFuncs with e | funcs
  · exfalso
    unfold processSet at h
    rw [hb] at h
    simp at h
  · rcases hr : runEmits gen st₀.emitted with ⟨em₁, rerr⟩
    cases rerr with
    | some e =>
      exfalso
      unfold processSet at h
      rw [hb, hr] at h
      simp at h
    | none =>
      refine ⟨funcs, em₁, rfl, rfl, ?_⟩
      unfold processSet
      rw [hb, hr]

/-- The value under a successful `Except` outcome. -/
def okOr (o : Except XErr String) : String :=
  match o with
  | Except.ok b => b
  | Except.error _ => ""

/-- The fragments a sequence of all-successful `Emit` calls appends. -/
def fragsOfGen : List (Tpl × Except XErr String) → List EmittedTemplate
  | [] => []
  | (tpl, out) :: rest => ⟨tpl, okOr out, "", []⟩ :: fragsOfGen rest

theorem runEmits_all_ok (gen : List (Tpl × Except XErr String)) :
    (∀ p ∈ gen, ∃ b, p.2 = Except.ok b) →
    ∀ em, runEmits gen em = (em ++ fragsOfGen gen, none) := by
  induction gen with
  | nil => intro _ em; simp [runEmits, fragsOfGen]
  | cons p rest ih =>
    intro hall em
    rcases p with ⟨tpl, out⟩
    rcases hall ⟨tpl, out⟩ (List.mem_cons_self _ _) with ⟨b, hb⟩
    simp only at hb
    subst hb
    have h' : ∀ q ∈ rest, ∃ c, q.2 = Except.ok c :=
      fun q hq => hall q (List.mem_cons_of_mem _ hq)
    calc runEmits ((tpl, Except.ok b) :: rest) em
        = runEmits rest (em ++ [(⟨tpl, b, "", []⟩ : EmittedTemplate)]) := rfl
      _ = (em ++ [(⟨tpl, b, "", []⟩ : EmittedTemplate)] ++ fragsOfGen rest, none) := ih h' _
      _ = (em ++ fragsOfGen ((tpl, Except.ok b) :: rest), none) := by
          simp [fragsOfGen, okOr]

theorem runEmits_mem (gen : List (Tpl × Except XErr String)) :
    ∀ (em : List EmittedTemplate) (t : EmittedTemplate),
      t ∈ em → t ∈ (runEmits gen em).1 := by
  induction gen with
  | nil => intro em t ht; exact ht
  | cons p rest ih =>
    intro em t ht
    rcases p with ⟨tpl, out⟩
    cases out with
    | error e => exact ht
    | ok b => exact ih (em ++ [⟨tpl, b, "", []⟩]) t (List.mem_append_left _ ht)

theorem pkgOutcome_mem (set : TemplateSet) (ap : Bool) (sorted : List EmittedTemplate)
    (t : EmittedTemplate) (ht : t ∈ sorted) : t ∈ (pkgOutcome set ap sorted).1 := by
  unfold pkgOutcome
  rcases ap with _ | _
  · rcases hp : set.PackageTemplates with _ | pts
    · exact ht
    · exact runEmits_mem pts sorted t ht
  · exact ht

end Xo

namespace Xo

/-! ### Merge-stage congruences and `flatFrags` decomposition -/

theorem filter_eq_nil_of_none (p : EmittedTemplate → Bool) (l : List EmittedTemplate)
    (h : ∀ t ∈ l, p t = false) : l.filter p = [] := by
  induction l with
  | nil => rfl
  | cons t ts ih =>
    rw [List.filter_cons, h t (List.mem_cons_self t ts)]
    exact ih (fun x hx => h x (List.mem_cons_of_mem t hx))

/-- The merge loops only look at the fragments whose template name is in
the order they walk: lists agreeing on those filters merge identically. -/
theorem mergeOrder_congr_emitted (set : TemplateSet) (disk : Disk) (ctx : Ctx)
    (single : String) (ap : Bool) (em₁ em₂ : List EmittedTemplate) :
    ∀ (ns : List String) (st : MergeSt),
      (∀ n ∈ ns, em₁.filter (fun t => t.template.template == n) =
        em₂.filter (fun t => t.template.template == n)) →
      mergeOrder set disk ctx single ap em₁ ns st =
        mergeOrder set disk ctx single ap em₂ ns st
  | [], st, _ => rfl
  | n :: ns, st, h => by
    rw [mergeOrder, mergeOrder, h n (List.mem_cons_self n ns)]
    rcases mergeList set disk ctx single ap
        (em₂.filter (fun t => t.template.template == n)) st with ⟨st₁, err⟩
    cases err with
    | some e => rfl
    | none =>
      exact mergeOrder_congr_emitted set disk ctx single ap em₁ em₂ ns st₁
        (fun x hx => h x (List.mem_cons_of_mem n hx))

theorem flatFrags_append_names (em : List EmittedTemplate) (xs ys : List String) :
    flatFrags em (xs ++ ys) = flatFrags em xs ++ flatFrags em ys := by
  induction xs with
  | nil => rfl
  | cons n ns ih => simp [flatFrags, ih]

theorem flatFrags_append_emitted (em₁ em₂ : List EmittedTemplate) (ns : List String) :
    flatFrags (em₁ ++ em₂) ns = ns.flatMap (fun n =>
      em₁.filter (fun t => t.template.template == n) ++
      em₂.filter (fun t => t.template.template == n)) := by
  induction ns with
  | nil => rfl
  | cons n ns ih => simp [flatFrags, ih, List.filter_append]

/-- Over names none of `em`'s fragments carry, `em` contributes nothing. -/
theorem flatFrags_drop (em₁ em₂ : List EmittedTemplate) (ns : List String)
    (h : ∀ n ∈ ns, ∀ t ∈ em₁, (t.template.template == n) = false) :
    flatFrags (em₁ ++ em₂) ns = flatFrags em₂ ns := by
  induction ns with
  | nil => rfl
  | cons n ns ih =>
    rw [flatFrags, flatFrags, List.filter_append,
      filter_eq_nil_of_none _ em₁ (fun t ht => h n (List.mem_cons_self n ns) t ht)]
    rw [List.nil_append]
    rw [ih (fun x hx t ht => h x (List.mem_cons_of_mem n hx) t ht)]

/-- Walking exactly the (pairwise distinct) template names of a fragment
list visits each of its fragments exactly once, in list order. -/
theorem flatFrags_self (em : List EmittedTemplate) :
    ∀ (ns : List String), (em.map (fun t => t.template.template)) = ns → ns.Nodup →
      flatFrags em ns = em := by
  induction em with
  | nil =>
    intro ns hmap hnd
    simp only [List.map_nil] at hmap
    subst hmap
    rfl
  | cons t ts ih =>
    intro ns hmap hnd
    cases ns with
    | nil => simp at hmap
    | cons n ns =>
      simp only [List.map_cons, List.cons.injEq] at hmap
      rcases hmap with ⟨hn, hns⟩
      rw [flatFrags, List.filter_cons]
      have hself : (t.template.template == n) = true := by
        rw [hn]
        exact beq_self_eq_true _
      rw [hself]
      have hnotin : ∀ x ∈ ts, (x.template.template == n) = false := by
        intro x hx
        have : x.template.template ∈ ns := hns ▸ List.mem_map_of_mem _ hx
        have hne : x.template.template ≠ n := by
          intro heq
          exact (List.nodup_cons.mp hnd).1 (heq ▸ this)
        simpa using hne
      rw [filter_eq_nil_of_none _ ts hnotin]
      have hflat : flatFrags (t :: ts) ns = flatFrags ts ns := by
        have : ∀ n' ∈ ns, ∀ x ∈ [t], (x.template.template == n') = false := by
          intro n' hn' x hx
          rcases List.mem_singleton.mp hx with rfl
          have hne : x.template.template ≠ n' := by
            intro heq
            rw [hn] at heq
            exact (List.nodup_cons.mp hnd).1 (heq ▸ hn')
          simpa using hne
        have := flatFrags_drop [t] ts ns this
        simpa using this
      rw [hflat, ih ns hns (List.nodup_cons.mp hnd).2]
      simp

end Xo


namespace Xo

/-! ### The output pipeline, file by file -/

/-- What the post-processing hook does to one file's entry. -/
def postEntry (post : String → Except XErr String) (f : String)
    (fe : EmittedTemplate) : EmittedTemplate :=
  match post fe.buf with
  | Except.error e => ⟨fe.template, fe.buf, fe.file, fe.err ++ [XErr.postFailed f e]⟩
  | Except.ok b => ⟨fe.template, b, fe.file, fe.err⟩

/-- What the write loop does to one file's entry. -/
def writeEntry (wr : DiskW) (out f : String) (fe : EmittedTemplate) : EmittedTemplate :=
  match wr (pathJoin out f) fe.buf with
  | some e => ⟨fe.template, fe.buf, fe.file, fe.err ++ [e]⟩
  | none => fe

theorem postFiles_lookup_not_mem (post : String → Except XErr String)
    (names : List String) :
    ∀ (files : List (String × EmittedTemplate)) (f : String), f ∉ names →
      alistLookup (postFiles post names files) f = alistLookup files f := by
  induction names with
  | nil => intro files f _; rfl
  | cons n ns ih =>
    intro files f hf
    have hfn : f ≠ n := fun heq => hf (heq ▸ List.mem_cons_self n ns)
    have hfns : f ∉ ns := fun hmem => hf (List.mem_cons_of_mem n hmem)
    rw [postFiles]
    split
    · exact ih files f hfns
    · split
      · rw [ih _ f hfns, alistLookup_update_ne _ _ _ _ (Ne.symm hfn)]
      · rw [ih _ f hfns, alistLookup_update_ne _ _ _ _ (Ne.symm hfn)]

theorem postFiles_lookup_mem (post : String → Except XErr String) (names : List String) :
    ∀ (files : List (String × EmittedTemplate)) (f : String) (fe : EmittedTemplate),
      names.Nodup → f ∈ names → alistLookup files f = some fe →
      alistLookup (postFiles post names files) f = some (postEntry post f fe) := by
  induction names with
  | nil => intro _ _ _ _ hf; cases hf
  | cons n ns ih =>
    intro files f fe hnd hf hlk
    rw [postFiles]
    by_cases hfn : f = n
    · subst hfn
      have hfns : f ∉ ns := (List.nodup_cons.mp hnd).1
      split
      · next heq => rw [hlk] at heq; cases heq
      · next fe' heq =>
        rw [hlk] at heq
        cases heq
        split
        · next e hp =>
          rw [postFiles_lookup_not_mem post ns _ f hfns, alistLookup_update_self,
            postEntry, hp]
        · next b hp =>
          rw [postFiles_lookup_not_mem post ns _ f hfns, alistLookup_update_self,
            postEntry, hp]
    · have hfns : f ∈ ns := (List.mem_cons.mp hf).resolve_left hfn
      have hnd' : ns.Nodup := (List.nodup_cons.mp hnd).2
      split
      · exact ih files f fe hnd' hfns hlk
      · next fe' heq =>
        split
        · exact ih _ f fe hnd' hfns
            (by rw [alistLookup_update_ne _ _ _ _ (Ne.symm hfn)]; exact hlk)
        · exact ih _ f fe hnd' hfns
            (by rw [alistLookup_update_ne _ _ _ _ (Ne.symm hfn)]; exact hlk)

theorem postFiles_keys (post : String → Except XErr String) (names : List String) :
    ∀ (files : List (String × EmittedTemplate)),
      (postFiles post names files).map Prod.fst = files.map Prod.fst := by
  induction names with
  | nil => intro _; rfl
  | cons n ns ih =>
    intro files
    rw [postFiles]
    split
    · exact ih files
    · next fe heq =>
      split
      · rw [ih _, alistUpdate_keys_of_mem _ _ _ fe heq]
      · rw [ih _, alistUpdate_keys_of_mem _ _ _ fe heq]

theorem writeFilesLoop_written_mono (wr : DiskW) (out : String) (names : List String) :
    ∀ (files : List (String × EmittedTemplate)) (written : List (String × String))
      (x : String × String), x ∈ written →
      x ∈ (writeFilesLoop wr out names files written).2 := by
  induction names with
  | nil => intro _ _ _ hx; exact hx
  | cons n ns ih =>
    intro files written x hx
    rw [writeFilesLoop]
    split
    · exact ih files written x hx
    · split
      · exact ih _ written x hx
      · exact ih files _ x (List.mem_append_left _ hx)

theorem writeFilesLoop_lookup_not_mem (wr : DiskW) (out : String) (names : List String) :
    ∀ (files : List (String × EmittedTemplate)) (written : List (String × String))
      (f : String), f ∉ names →
      alistLookup (writeFilesLoop wr out names files written).1 f =
        alistLookup files f := by
  induction names with
  | nil => intro _ _ _ _; rfl
  | cons n ns ih =>
    intro files written f hf
    have hfn : f ≠ n := fun heq => hf (heq ▸ List.mem_cons_self n ns)
    have hfns : f ∉ ns := fun hmem => hf (List.mem_cons_of_mem n hmem)
    rw [writeFilesLoop]
    split
    · exact ih files written f hfns
    · split
      · rw [ih _ written f hfns, alistLookup_update_ne _ _ _ _ (Ne.symm hfn)]
      · exact ih files _ f hfns

theorem writeFilesLoop_spec (wr : DiskW) (out : String) (names : List String) :
    ∀ (files : List (String × EmittedTemplate)) (written : List (String × String))
      (f : String) (fe : EmittedTemplate),
      names.Nodup → f ∈ names → alistLookup files f = some fe →
      alistLookup (writeFilesLoop wr out names files written).1 f =
        some (writeEntry wr out f fe) ∧
      (wr (pathJoin out f) fe.buf = none →
        (pathJoin out f, fe.buf) ∈ (writeFilesLoop wr out names files written).2) := by
  induction names with
  | nil => intro _ _ _ _ _ hf; cases hf
  | cons n ns ih =>
    intro files written f fe hnd hf hlk
    rw [writeFilesLoop]
    by_cases hfn : f = n
    · subst hfn
      have hfns : f ∉ ns := (List.nodup_cons.mp hnd).1
      split
      · next heq => rw [hlk] at heq; cases heq
      · next fe' heq =>
        rw [hlk] at heq
        cases heq
        split
        · next e hw =>
          constructor
          · rw [writeFilesLoop_lookup_not_mem wr out ns _ _ f hfns,
              alistLookup_update_self, writeEntry, hw]
          · intro hcontra
            rw [hw] at hcontra
            cases hcontra
        · next hw =>
          constructor
          · rw [writeFilesLoop_lookup_not_mem wr out ns _ _ f hfns, hlk,
              writeEntry, hw]
          · intro _
            exact writeFilesLoop_written_mono wr out ns files _ _
              (List.mem_append_right _ (List.mem_singleton.mpr rfl))
    · have hfns : f ∈ ns := (List.mem_cons.mp hf).resolve_left hfn
      have hnd' : ns.Nodup := (List.nodup_cons.mp hnd).2
      split
      · exact ih files written f fe hnd' hfns hlk
      · next fe' heq =>
        split
        · exact ih _ written f fe hnd' hfns
            (by rw [alistLookup_update_ne _ _ _ _ (Ne.symm hfn)]; exact hlk)
        · exact ih files _ f fe hnd' hfns hlk

/-! ### Merging the `Init` func map -/

theorem fmMerge_lookup_not_mem (m : FuncMap) :
    ∀ (fm : FuncMap) (k : String), k ∉ m.map Prod.fst →
      alistLookup (fmMerge fm m) k = alistLookup fm k := by
  induction m with
  | nil => intro _ _ _; rfl
  | cons kv rest ih =>
    intro fm k hk
    have hk₁ : k ≠ kv.1 := by
      intro heq
      exact hk (heq ▸ List.mem_map_of_mem Prod.fst (List.mem_cons_self kv rest))
    have hk₂ : k ∉ rest.map Prod.fst := by
      intro hmem
      exact hk (List.mem_cons_of_mem _ hmem)
    rw [fmMerge, List.foldl_cons]
    have := ih (alistUpdate fm kv.1 kv.2) k hk₂
    rw [fmMerge] at this
    rw [this, alistLookup_update_ne _ _ _ _ (Ne.symm hk₁)]

theorem fmMerge_lookup_mem (m : FuncMap) :
    ∀ (fm : FuncMap) (k : String) (v : Nat),
      (m.map Prod.fst).Nodup → (k, v) ∈ m →
      alistLookup (fmMerge fm m) k = some v := by
  induction m with
  | nil => intro _ _ _ _ hkv; cases hkv
  | cons kv rest ih =>
    intro fm k v hnd hkv
    rw [fmMerge, List.foldl_cons]
    rcases List.mem_cons.mp hkv with heq | hmem
    · have hk₁ : k = kv.1 := congrArg Prod.fst heq
      have hv : v = kv.2 := congrArg Prod.snd heq
      have hknot : k ∉ rest.map Prod.fst := hk₁ ▸ (List.nodup_cons.mp hnd).1
      have := fmMerge_lookup_not_mem rest (alistUpdate fm kv.1 kv.2) k hknot
      rw [fmMerge] at this
      rw [this, hk₁, hv, alistLookup_update_self]
    · have := ih (alistUpdate fm kv.1 kv.2) k v (List.nodup_cons.mp hnd).2 hmem
      rw [fmMerge] at this
      rw [this]

end Xo

namespace Xo

/-! ### Run-level facts -/

theorem sortStrings_perm (l : List String) : (sortStrings l).Perm l :=
  List.perm_insertionSort _ l

theorem processSet_funcs_error (set : TemplateSet) (disk : Disk) (ctx₀ : Ctx) (ap : Bool)
    (single : String) (gen : List (Tpl × Except XErr String)) (st₀ : RunState) (e : XErr)
    (h : set.BuildFuncs = Except.error e) :
    processSet set disk ctx₀ ap single gen st₀ =
      ⟨some (XErr.funcsWrap e), st₀.emitted, st₀.files, [], none⟩ := by
  unfold processSet
  rw [h]

/-- The starting file-buffer map influences neither whether a run
succeeds nor, on success, anything it produces: the merge stage starts
from a freshly reset map. -/
theorem processFromEmitted_files_independent (set : TemplateSet) (disk : Disk)
    (ctx : Ctx) (ap : Bool) (single : String) (em : List EmittedTemplate)
    (F F' : List (String × EmittedTemplate)) (funcs : FuncMap) :
    (processFromEmitted set disk ctx ap single em F funcs).result =
      (processFromEmitted set disk ctx ap single em F' funcs).result ∧
    ((processFromEmitted set disk ctx ap single em F funcs).result = none →
      processFromEmitted set disk ctx ap single em F funcs =
        processFromEmitted set disk ctx ap single em F' funcs) := by
  unfold processFromEmitted
  rcases hp : pkgOutcome set ap (sortEmitted em) with ⟨em₂, perr⟩
  cases perr with
  | some e =>
    refine ⟨rfl, fun h => ?_⟩
    simp at h
  | none =>
    rcases mergeOrder set disk ctx single ap em₂ (finalOrder set ap) ⟨[], []⟩
      with ⟨m, err⟩
    exact ⟨rfl, fun _ => rfl⟩

theorem processSet_files_independent (set : TemplateSet) (disk : Disk) (ctx₀ : Ctx)
    (ap : Bool) (single : String) (gen : List (Tpl × Except XErr String))
    (st₀ st₀' : RunState) (he : st₀.emitted = st₀'.emitted) :
    (processSet set disk ctx₀ ap single gen st₀).result =
      (processSet set disk ctx₀ ap single gen st₀').result ∧
    ((processSet set disk ctx₀ ap single gen st₀).result = none →
      (processSet set disk ctx₀ ap single gen st₀).files =
        (processSet set disk ctx₀ ap single gen st₀').files ∧
      (processSet set disk ctx₀ ap single gen st₀).emitted =
        (processSet set disk ctx₀ ap single gen st₀').emitted) := by
  unfold processSet
  rw [he]
  rcases set.BuildFuncs with er | funcs
  · refine ⟨rfl, fun h => ?_⟩
    simp at h
  · rcases runEmits gen st₀'.emitted with ⟨em₁, rerr⟩
    cases rerr with
    | some e =>
      refine ⟨rfl, fun h => ?_⟩
      simp at h
    | none =>
      have hind := processFromEmitted_files_independent set disk (ctxOf set ctx₀) ap
        single em₁ st₀.files st₀'.files funcs
      exact ⟨hind.1, fun h =>
        ⟨congrArg ProcOut.files (hind.2 h), congrArg ProcOut.emitted (hind.2 h)⟩⟩

/-- Fragments present in the configuration's emitted list before the run
are still present after a successful run. -/
theorem processSet_emitted_carryover (set : TemplateSet) (disk : Disk) (ctx₀ : Ctx)
    (ap : Bool) (single : String) (gen : List (Tpl × Except XErr String))
    (st₀ : RunState) (t : EmittedTemplate)
    (h : (processSet set disk ctx₀ ap single gen st₀).result = none)
    (ht : t ∈ st₀.emitted) :
    t ∈ (processSet set disk ctx₀ ap single gen st₀).emitted := by
  obtain ⟨funcs, em₁, _, hr, heq⟩ := processSet_ok set disk ctx₀ ap single gen st₀ h
  rw [heq] at h ⊢
  obtain ⟨st', _, _, hemit, _⟩ := processFromEmitted_ok _ _ _ _ _ _ _ _ h
  rw [hemit]
  have ht₁ : t ∈ em₁ := by
    have := runEmits_mem gen st₀.emitted t ht
    rw [hr] at this
    exact this
  have ht₂ : t ∈ sortEmitted em₁ := ((sortEmitted_perm em₁).mem_iff).mpr ht₁
  exact pkgOutcome_mem set ap (sortEmitted em₁) t ht₂

/-! ### The spec's two readings of `Flags` -/

/-- The union the spec claims `Flags` computes, following the spec's
words: over every registered configuration applicable to the capability
*as judged by `For`* (so "dump" is always applicable), that
configuration's declared flags tagged with its owning name. -/
def flagsPerFor (reg : List (String × TemplateSet)) (name : String) : List FlagSet :=
  (Types reg).foldl
    (fun acc typ =>
      match alistLookup reg typ with
      | none => acc
      | some set =>
        if For reg typ name then
          acc ++ set.Flags.map (fun fl => ⟨typ, fl.contextKey, fl⟩)
        else acc)
    []

/-- The applicability test `Flags` actually performs, in the spec's
vocabulary: the configuration declares no capability list, or its list
contains the capability — with no special case for "dump". -/
def appliesTo (set : TemplateSet) (name : String) : Bool :=
  match set.For with
  | none => true
  | some l => contains l name

/-- The union over configurations applicable per `appliesTo`. -/
def flagsPerApplies (reg : List (String × TemplateSet)) (name : String) : List FlagSet :=
  (Types reg).foldl
    (fun acc typ =>
      match alistLookup reg typ with
      | none => acc
      | some set =>
        if appliesTo set name then
          acc ++ set.Flags.map (fun fl => ⟨typ, fl.contextKey, fl⟩)
        else acc)
    []

theorem foldlCongr {α β : Type} (f g : β → α → β) (l : List α)
    (h : ∀ acc x, f acc x = g acc x) : ∀ (init : β), l.foldl f init = l.foldl g init := by
  induction l with
  | nil => intro _; rfl
  | cons x xs ih => intro init; rw [List.foldl_cons, List.foldl_cons, h, ih]

end Xo

namespace Xo

/-! ### Concrete runs used as counterexamples and witnesses -/

/-- A minimal target configuration: one template name, no header, no
package templates, no hooks. -/
def baseSet : TemplateSet :=
  { For := none
    FileExt := ".go"
    Flags := []
    Order := ["t"]
    HeaderTemplate := none
    PackageTemplates := none
    Funcs := none
    FileName := fun _ => "f"
    BuildContext := none
    Post := none
    funcsScript := none }

/-- A run context: template type "go", no suffix override, output in the
current directory. -/
def baseCtx : Ctx := ⟨"go", "", ""⟩

/-- An empty output directory. -/
def emptyDisk : Disk := fun _ => DiskEntry.absent

/-- The fragments of a run that end up in output file `f`, in the order
the merge loop appends them: grouped by the final processing order of
their template names, within a group in the (stable-sorted, then
package-appended) emitted-list order. -/
def fileContribs (set : TemplateSet) (ctx : Ctx) (single : String) (ap : Bool)
    (em : List EmittedTemplate) (f : String) : List EmittedTemplate :=
  fragsFor set ctx single f (flatFrags (mergedEmitted set ap em) (finalOrder set ap))

/-- C1, counterexample.  The claim fails on the code twice over.
(i) Two fragments with the same sort key (template "t", type "", name
"x") but different bytes: the stable sort keeps their emission order, so
the merged file reads "XY" under one emission order and "YX" under the
other — the content depends on the emission order.
(ii) With processing order ["b", "a"], the fragment of template "b" is
merged before that of template "a" although the sort key of "a"'s
fragment is strictly smaller: the file content is "BA", not the
key-sorted "AB" — fragments in one file are not sorted by the key across
template names. -/
theorem claim1_counterexample :
    (alistLookup (processFromEmitted baseSet emptyDisk baseCtx false ""
        [⟨⟨"", "t", "", "x", 0, []⟩, "X", "", []⟩,
         ⟨⟨"", "t", "", "x", 0, []⟩, "Y", "", []⟩] [] []).files "f.go" ≠
      alistLookup (processFromEmitted baseSet emptyDisk baseCtx false ""
        [⟨⟨"", "t", "", "x", 0, []⟩, "Y", "", []⟩,
         ⟨⟨"", "t", "", "x", 0, []⟩, "X", "", []⟩] [] []).files "f.go") ∧
    (alistLookup (processFromEmitted { baseSet with Order := ["b", "a"] }
        emptyDisk baseCtx false ""
        [⟨⟨"", "a", "", "x", 0, []⟩, "A", "", []⟩,
         ⟨⟨"", "b", "", "x", 0, []⟩, "B", "", []⟩] [] []).files "f.go" =
      some ⟨emptyTpl, "BA", "f.go", []⟩ ∧
      tplLess ⟨"", "a", "", "x", 0, []⟩ ⟨"", "b", "", "x", 0, []⟩ = true) := by
  decide

/-- C1, amended.  `Process` sorts the emitted fragments by
(template name, type, instance name); within one output file the
fragments appear grouped by the final processing order of their template
names, each group in sorted order, and — provided no two emitted
fragments share a sort key — the whole run result is independent of the
order in which the generation logic emitted them. -/
theorem claim1_fragment_order (set : TemplateSet) (disk : Disk) (ctx : Ctx) (ap : Bool)
    (single : String) (l₁ l₂ : List EmittedTemplate)
    (files₀ : List (String × EmittedTemplate)) (funcs : FuncMap)
    (hperm : l₁.Perm l₂)
    (hkeys : (l₁.map (fun t => tplKey t.template)).Nodup) :
    List.Sorted emLe (sortEmitted l₁) ∧
    processFromEmitted set disk ctx ap single l₁ files₀ funcs =
      processFromEmitted set disk ctx ap single l₂ files₀ funcs ∧
    ((processFromEmitted set disk ctx ap single l₁ files₀ funcs).result = none →
      ∀ f : String,
        (fileContribs set ctx single ap l₁ f = [] →
          alistLookup
            (processFromEmitted set disk ctx ap single l₁ files₀ funcs).files f = none) ∧
        (fileContribs set ctx single ap l₁ f ≠ [] →
          ∃ s, set.LoadFile disk ctx f ap = Except.ok s ∧
            alistLookup
                (processFromEmitted set disk ctx ap single l₁ files₀ funcs).files f =
              some ⟨emptyTpl, s ++ bufConcat (fileContribs set ctx single ap l₁ f),
                f, []⟩)) := by
  refine ⟨sortEmitted_sorted l₁, ?_, ?_⟩
  · have hsort : sortEmitted l₁ = sortEmitted l₂ :=
      sortEmitted_eq_of_perm l₁ l₂ hperm hkeys
    unfold processFromEmitted
    rw [hsort]
  · intro hres f
    obtain ⟨st', hm, hfiles, _, _⟩ :=
      processFromEmitted_ok set disk ctx ap single l₁ files₀ funcs hres
    have H := mergeOrder_lookup set disk ctx single ap (mergedEmitted set ap l₁)
      (finalOrder set ap) st' hm f
    rw [hfiles]
    exact ⟨fun h0 => H.1 h0, fun hne => H.2 hne⟩

/-- C1, witness for the amended theorem's hypotheses at a concrete
input: a one-fragment run. -/
theorem claim1_fragment_order_witness :
    (([⟨⟨"", "t", "", "x", 0, []⟩, "X", "", []⟩] : List EmittedTemplate).Perm
      [⟨⟨"", "t", "", "x", 0, []⟩, "X", "", []⟩] ∧
     (([⟨⟨"", "t", "", "x", 0, []⟩, "X", "", []⟩] : List EmittedTemplate).map
        (fun t => tplKey t.template)).Nodup) ∧
    List.Sorted emLe (sortEmitted [⟨⟨"", "t", "", "x", 0, []⟩, "X", "", []⟩]) ∧
    processFromEmitted baseSet emptyDisk baseCtx false ""
        [⟨⟨"", "t", "", "x", 0, []⟩, "X", "", []⟩] [] [] =
      processFromEmitted baseSet emptyDisk baseCtx false ""
        [⟨⟨"", "t", "", "x", 0, []⟩, "X", "", []⟩] [] [] ∧
    ((processFromEmitted baseSet emptyDisk baseCtx false ""
        [⟨⟨"", "t", "", "x", 0, []⟩, "X", "", []⟩] [] []).result = none →
      ∀ f : String,
        (fileContribs baseSet baseCtx "" false
            [⟨⟨"", "t", "", "x", 0, []⟩, "X", "", []⟩] f = [] →
          alistLookup (processFromEmitted baseSet emptyDisk baseCtx false ""
            [⟨⟨"", "t", "", "x", 0, []⟩, "X", "", []⟩] [] []).files f = none) ∧
        (fileContribs baseSet baseCtx "" false
            [⟨⟨"", "t", "", "x", 0, []⟩, "X", "", []⟩] f ≠ [] →
          ∃ s, baseSet.LoadFile emptyDisk baseCtx f false = Except.ok s ∧
            alistLookup (processFromEmitted baseSet emptyDisk baseCtx false ""
                [⟨⟨"", "t", "", "x", 0, []⟩, "X", "", []⟩] [] []).files f =
              some ⟨emptyTpl, s ++ bufConcat (fileContribs baseSet baseCtx "" false
                [⟨⟨"", "t", "", "x", 0, []⟩, "X", "", []⟩] f), f, []⟩)) :=
  ⟨⟨by decide, by decide⟩,
    claim1_fragment_order baseSet emptyDisk baseCtx false ""
      [⟨⟨"", "t", "", "x", 0, []⟩, "X", "", []⟩]
      [⟨⟨"", "t", "", "x", 0, []⟩, "X", "", []⟩] [] []
      (by decide) (by decide)⟩

end Xo


namespace Xo

/-! ### Package-template facts (C2) -/

theorem contains_iff_mem (l : List String) (s : String) :
    contains l s = true ↔ s ∈ l := by
  induction l with
  | nil => simp [contains]
  | cons z rest ih =>
    rw [contains]
    by_cases h : z = s
    · simp [h]
    · simp [h, ih, Ne.symm h]

theorem mem_removeMatching (v s : List String) (z : String) :
    z ∈ removeMatching v s → z ∈ v ∧ contains s z = false := by
  induction v with
  | nil => intro h; cases h
  | cons x rest ih =>
    intro h
    rw [removeMatching] at h
    by_cases hc : contains s x = true
    · rw [if_pos hc] at h
      rcases ih h with ⟨h₁, h₂⟩
      exact ⟨List.mem_cons_of_mem x h₁, h₂⟩
    · rw [if_neg hc] at h
      rcases List.mem_cons.mp h with rfl | hmem
      · exact ⟨List.mem_cons_self z rest, by simpa using hc⟩
      · rcases ih hmem with ⟨h₁, h₂⟩
        exact ⟨List.mem_cons_of_mem x h₁, h₂⟩

theorem fragsOfGen_names (pts : List (Tpl × Except XErr String)) :
    (fragsOfGen pts).map (fun t => t.template.template) =
      pts.map (fun p => p.1.template) := by
  induction pts with
  | nil => rfl
  | cons p rest ih =>
    rcases p with ⟨tpl, out⟩
    simp [fragsOfGen, ih]

theorem flatFrags_drop_right (em₁ em₂ : List EmittedTemplate) (ns : List String)
    (h : ∀ n ∈ ns, ∀ t ∈ em₂, (t.template.template == n) = false) :
    flatFrags (em₁ ++ em₂) ns = flatFrags em₁ ns := by
  induction ns with
  | nil => rfl
  | cons n ns ih =>
    rw [flatFrags, flatFrags, List.filter_append,
      filter_eq_nil_of_none _ em₂ (fun t ht => h n (List.mem_cons_self n ns) t ht),
      List.append_nil]
    rw [ih (fun x hx t ht => h x (List.mem_cons_of_mem n hx) t ht)]

theorem pkgOutcome_some (set : TemplateSet) (pts : List (Tpl × Except XErr String))
    (h : set.PackageTemplates = some pts) (sorted : List EmittedTemplate) :
    pkgOutcome set false sorted = runEmits pts sorted := by
  unfold pkgOutcome
  rw [h]

theorem finalOrder_some (set : TemplateSet) (pts : List (Tpl × Except XErr String))
    (h : set.PackageTemplates = some pts) :
    finalOrder set false =
      pts.map (fun p => p.1.template) ++
        removeMatching set.Order (pts.map (fun p => p.1.template)) := by
  unfold finalOrder
  rw [h]

/-- A package template named "p" rendering to "P". -/
def pkgPts : List (Tpl × Except XErr String) :=
  [(⟨"", "p", "", "", 0, []⟩, Except.ok "P")]

/-- `baseSet` with the package template "p" declared and "p" in the
base order. -/
def pkgSet : TemplateSet :=
  { baseSet with Order := ["p"], PackageTemplates := some pkgPts }

/-- A generation pass that emitted one fragment under template "t". -/
def genX : List EmittedTemplate :=
  [⟨⟨"", "t", "", "x", 0, []⟩, "X", "", []⟩]

/-- C2, counterexample.  Two concrete non-append runs with declared
package templates on which the claim fails.
(i) The generation logic emits a per-entity fragment (bytes "E") under
the same template name "p" as the package template (bytes "P"); the
merged file reads "EP": the package content comes *after* the per-entity
content, because the merge loop walks all fragments of name "p" in
emitted order and the package fragment was appended last (after the
sort).
(ii) Two package templates share the name "p" (bytes "P" and "Q"); the
reordered processing order lists "p" twice, so each package fragment is
merged twice and the file reads "PQPQ" — not "exactly once". -/
theorem claim2_counterexample :
    (alistLookup (processFromEmitted pkgSet emptyDisk baseCtx false ""
        [⟨⟨"", "p", "", "e", 0, []⟩, "E", "", []⟩] [] []).files "f.go" =
      some ⟨emptyTpl, "EP", "f.go", []⟩) ∧
    (alistLookup (processFromEmitted
        { baseSet with
            Order := []
            PackageTemplates := some [(⟨"", "p", "", "", 0, []⟩, Except.ok "P"),
              (⟨"", "p", "", "q", 0, []⟩, Except.ok "Q")] }
        emptyDisk baseCtx false "" [] [] []).files "f.go" =
      some ⟨emptyTpl, "PQPQ", "f.go", []⟩) := by
  decide

/-- C2, amended.  In a non-append run with a declared package-template
factory whose templates all render, whose names are pairwise distinct,
and whose names are shared by no emitted per-entity fragment:
every package template is rendered and appended to the run's fragment
list; the final processing order is the package names followed by the
base order with those names removed; the fragments contributing to every
output file are exactly the package fragments (once each, in factory
order) followed by the per-entity fragments; and on success every such
file's buffer is its seed, then the package bytes, then the per-entity
bytes. -/
theorem claim2_package_templates (set : TemplateSet) (disk : Disk) (ctx : Ctx)
    (single : String) (l : List EmittedTemplate)
    (files₀ : List (String × EmittedTemplate)) (funcs : FuncMap)
    (pts : List (Tpl × Except XErr String))
    (hpts : set.PackageTemplates = some pts)
    (hok : ∀ p ∈ pts, ∃ b, p.2 = Except.ok b)
    (hnd : (pts.map (fun p => p.1.template)).Nodup)
    (hdisj : ∀ t ∈ l, contains (pts.map (fun p => p.1.template))
      t.template.template = false) :
    mergedEmitted set false l = sortEmitted l ++ fragsOfGen pts ∧
    finalOrder set false =
      pts.map (fun p => p.1.template) ++
        removeMatching set.Order (pts.map (fun p => p.1.template)) ∧
    (∀ f : String,
      fileContribs set ctx single false l f =
        fragsFor set ctx single f (fragsOfGen pts) ++
          fragsFor set ctx single f (flatFrags (sortEmitted l)
            (removeMatching set.Order (pts.map (fun p => p.1.template))))) ∧
    ((processFromEmitted set disk ctx false single l files₀ funcs).result = none →
      ∀ f : String, fileContribs set ctx single false l f ≠ [] →
        ∃ s, set.LoadFile disk ctx f false = Except.ok s ∧
          alistLookup
              (processFromEmitted set disk ctx false single l files₀ funcs).files f =
            some ⟨emptyTpl,
              s ++ (bufConcat (fragsFor set ctx single f (fragsOfGen pts)) ++
                bufConcat (fragsFor set ctx single f (flatFrags (sortEmitted l)
                  (removeMatching set.Order (pts.map (fun p => p.1.template)))))),
              f, []⟩) := by
  have hdisj' : ∀ t ∈ sortEmitted l,
      contains (pts.map (fun p => p.1.template)) t.template.template = false :=
    fun t ht => hdisj t ((sortEmitted_perm l).mem_iff.mp ht)
  have h1 : mergedEmitted set false l = sortEmitted l ++ fragsOfGen pts := by
    unfold mergedEmitted
    rw [pkgOutcome_some set pts hpts, runEmits_all_ok pts hok (sortEmitted l)]
  have h2 := finalOrder_some set pts hpts
  have h3 : ∀ f : String,
      fileContribs set ctx single false l f =
        fragsFor set ctx single f (fragsOfGen pts) ++
          fragsFor set ctx single f (flatFrags (sortEmitted l)
            (removeMatching set.Order (pts.map (fun p => p.1.template)))) := by
    intro f
    unfold fileContribs
    rw [h1, h2, flatFrags_append_names]
    have hdropGen : flatFrags (sortEmitted l ++ fragsOfGen pts)
        (pts.map (fun p => p.1.template)) =
        flatFrags (fragsOfGen pts) (pts.map (fun p => p.1.template)) := by
      apply flatFrags_drop
      intro n hn t ht
      by_cases he : t.template.template = n
      · exfalso
        have hc := hdisj' t ht
        rw [he] at hc
        rw [(contains_iff_mem _ n).mpr hn] at hc
        cases hc
      · simpa using he
    have hdropPkg : flatFrags (sortEmitted l ++ fragsOfGen pts)
        (removeMatching set.Order (pts.map (fun p => p.1.template))) =
        flatFrags (sortEmitted l)
          (removeMatching set.Order (pts.map (fun p => p.1.template))) := by
      apply flatFrags_drop_right
      intro n hn t ht
      have hnc : contains (pts.map (fun p => p.1.template)) n = false :=
        (mem_removeMatching _ _ n hn).2
      by_cases he : t.template.template = n
      · exfalso
        have htn : t.template.template ∈ pts.map (fun p => p.1.template) := by
          rw [← fragsOfGen_names pts]
          exact List.mem_map_of_mem _ ht
        rw [he] at htn
        rw [(contains_iff_mem _ n).mpr htn] at hnc
        cases hnc
      · simpa using he
    have hself : flatFrags (fragsOfGen pts) (pts.map (fun p => p.1.template)) =
        fragsOfGen pts :=
      flatFrags_self (fragsOfGen pts) _ (fragsOfGen_names pts) hnd
    rw [hdropGen, hdropPkg, hself, fragsFor_append]
  refine ⟨h1, h2, h3, ?_⟩
  intro hres f hne
  obtain ⟨st', hm, hfiles, _, _⟩ :=
    processFromEmitted_ok set disk ctx false single l files₀ funcs hres
  have H := (mergeOrder_lookup set disk ctx single false (mergedEmitted set false l)
    (finalOrder set false) st' hm f).2 hne
  rcases H with ⟨s, hL, hlk⟩
  refine ⟨s, hL, ?_⟩
  rw [hfiles, hlk]
  have h3f := h3 f
  unfold fileContribs at h3f
  rw [h3f, bufConcat_append]

/-- C2, witness at a concrete input: one package template "p", one
per-entity fragment under template "t". -/
theorem claim2_package_templates_witness :
    (pkgSet.PackageTemplates = some pkgPts ∧
     (∀ p ∈ pkgPts, ∃ b, p.2 = Except.ok b) ∧
     (pkgPts.map (fun p => p.1.template)).Nodup ∧
     (∀ t ∈ genX, contains (pkgPts.map (fun p => p.1.template))
       t.template.template = false)) ∧
    mergedEmitted pkgSet false genX = sortEmitted genX ++ fragsOfGen pkgPts := by
  have hok : ∀ p ∈ pkgPts, ∃ b, p.2 = Except.ok b := by
    intro p hp
    simp only [pkgPts] at hp
    rcases List.mem_singleton.mp hp with rfl
    exact ⟨"P", rfl⟩
  refine ⟨⟨rfl, hok, by decide, by decide⟩, ?_⟩
  exact (claim2_package_templates pkgSet emptyDisk baseCtx "" genX [] [] pkgPts
    rfl hok (by decide) (by decide)).1

end Xo

namespace Xo

/-! ### C3: the run-scoped state across runs -/

/-- The emission sequence of a generation pass producing one fragment
under template "t". -/
def genT : List (Tpl × Except XErr String) :=
  [(⟨"", "t", "", "x", 0, []⟩, Except.ok "X")]

/-- C3, counterexample.  Running `Process` twice against the same
configuration (the second run starting from the first run's mutable
state, as the long-lived `TemplateSet` does) merges the first run's
fragment again: the second run's single output file holds "XX" and its
emitted list holds two fragments, while a first (fresh) run produces "X"
from one fragment.  The emitted-fragment list is not reset, so fragments
do carry over, contradicting the claim. -/
theorem claim3_counterexample :
    (alistLookup (processSet baseSet emptyDisk baseCtx false "" genT
        ⟨(processSet baseSet emptyDisk baseCtx false "" genT ⟨[], []⟩).emitted,
         (processSet baseSet emptyDisk baseCtx false "" genT ⟨[], []⟩).files⟩).files
      "f.go" = some ⟨emptyTpl, "XX", "f.go", []⟩) ∧
    ((processSet baseSet emptyDisk baseCtx false "" genT
        ⟨(processSet baseSet emptyDisk baseCtx false "" genT ⟨[], []⟩).emitted,
         (processSet baseSet emptyDisk baseCtx false "" genT ⟨[], []⟩).files⟩).emitted.length
      = 2) ∧
    (alistLookup (processSet baseSet emptyDisk baseCtx false "" genT
        ⟨[], []⟩).files "f.go" = some ⟨emptyTpl, "X", "f.go", []⟩) := by
  decide

/-- C3, amended.  Of the two run-scoped mutable fields only the
file-buffer map behaves as if reset each run: the run's result and (on
success) its produced state are independent of the file-buffer map the
run started with, because `Process` rebuilds it from scratch before
merging.  The emitted-fragment list, however, is *not* reset: every
fragment present before the run is still present in the configuration's
emitted list after a successful run, and is merged again. -/
theorem claim3_run_state (set : TemplateSet) (disk : Disk) (ctx₀ : Ctx) (ap : Bool)
    (single : String) (gen : List (Tpl × Except XErr String)) (st₀ st₀' : RunState)
    (he : st₀.emitted = st₀'.emitted) :
    ((processSet set disk ctx₀ ap single gen st₀).result =
      (processSet set disk ctx₀ ap single gen st₀').result) ∧
    ((processSet set disk ctx₀ ap single gen st₀).result = none →
      (processSet set disk ctx₀ ap single gen st₀).files =
        (processSet set disk ctx₀ ap single gen st₀').files) ∧
    ((processSet set disk ctx₀ ap single gen st₀).result = none →
      ∀ t ∈ st₀.emitted, t ∈ (processSet set disk ctx₀ ap single gen st₀).emitted) := by
  have h1 := processSet_files_independent set disk ctx₀ ap single gen st₀ st₀' he
  exact ⟨h1.1, fun h => (h1.2 h).1, fun h t ht =>
    processSet_emitted_carryover set disk ctx₀ ap single gen st₀ t h ht⟩

/-- C3, witness: a run started with a stale file buffer and a stale
fragment in the configuration state. -/
theorem claim3_run_state_witness :
    ((⟨genX, [("g.go", ⟨emptyTpl, "OLD", "g.go", []⟩)]⟩ : RunState).emitted =
      (⟨genX, []⟩ : RunState).emitted) ∧
    ((processSet baseSet emptyDisk baseCtx false "" genT
        ⟨genX, [("g.go", ⟨emptyTpl, "OLD", "g.go", []⟩)]⟩).result =
      (processSet baseSet emptyDisk baseCtx false "" genT ⟨genX, []⟩).result) ∧
    ((processSet baseSet emptyDisk baseCtx false "" genT
        ⟨genX, [("g.go", ⟨emptyTpl, "OLD", "g.go", []⟩)]⟩).result = none →
      (processSet baseSet emptyDisk baseCtx false "" genT
          ⟨genX, [("g.go", ⟨emptyTpl, "OLD", "g.go", []⟩)]⟩).files =
        (processSet baseSet emptyDisk baseCtx false "" genT ⟨genX, []⟩).files) ∧
    ((processSet baseSet emptyDisk baseCtx false "" genT
        ⟨genX, [("g.go", ⟨emptyTpl, "OLD", "g.go", []⟩)]⟩).result = none →
      ∀ t ∈ (⟨genX, [("g.go", ⟨emptyTpl, "OLD", "g.go", []⟩)]⟩ : RunState).emitted,
        t ∈ (processSet baseSet emptyDisk baseCtx false "" genT
          ⟨genX, [("g.go", ⟨emptyTpl, "OLD", "g.go", []⟩)]⟩).emitted) :=
  ⟨rfl, claim3_run_state baseSet emptyDisk baseCtx false "" genT
    ⟨genX, [("g.go", ⟨emptyTpl, "OLD", "g.go", []⟩)]⟩ ⟨genX, []⟩ rfl⟩

/-! ### C4: seeding the file buffers -/

/-- An output directory whose every path is a directory. -/
def dirDisk : Disk := fun _ => DiskEntry.dirEnt

/-- `baseSet` with a header template rendering to "H". -/
def headerSet : TemplateSet :=
  { baseSet with HeaderTemplate := some (Except.ok "H") }

/-- C4, counterexample.  In a *non-append* run whose resolved output
path is a directory on disk, `Process` does not fail: `LoadFile`'s
first switch case (`!doAppend`) wins before the directory check, the
buffer is seeded with the freshly rendered header, and the run succeeds
with content "HX".  The claim's "fails whenever the resolved path is a
directory" holds only in append mode. -/
theorem claim4_counterexample :
    (processFromEmitted headerSet dirDisk baseCtx false ""
        [⟨⟨"", "t", "", "x", 0, []⟩, "X", "", []⟩] [] []).result = none ∧
    (alistLookup (processFromEmitted headerSet dirDisk baseCtx false ""
        [⟨⟨"", "t", "", "x", 0, []⟩, "X", "", []⟩] [] []).files "f.go" =
      some ⟨emptyTpl, "HX", "f.go", []⟩) ∧
    dirDisk (pathJoin baseCtx.out "f.go") = DiskEntry.dirEnt := by
  decide

/-- C4, amended.  How the first fragment for a resolved output file
seeds its buffer: in append mode an existing regular file's content is
read; in append mode a directory is an error, and with fragments
destined for that file the whole run fails; otherwise (not appending —
whatever is on disk, directory included — or nothing on disk) the seed
is the freshly rendered header when a header template is declared and
empty otherwise; and on success each populated file's buffer is exactly
its seed followed by its fragments' bytes. -/
theorem claim4_seeding (set : TemplateSet) (disk : Disk) (ctx : Ctx) (f : String) :
    (∀ c, disk (pathJoin ctx.out f) = DiskEntry.fileEnt c →
      set.LoadFile disk ctx f true = Except.ok c) ∧
    (disk (pathJoin ctx.out f) = DiskEntry.dirEnt →
      set.LoadFile disk ctx f true =
        Except.error (XErr.isDirectory (pathJoin ctx.out f))) ∧
    (∀ ap : Bool, disk (pathJoin ctx.out f) = DiskEntry.absent ∨ ap = false →
      set.LoadFile disk ctx f ap =
        (match set.HeaderTemplate with
         | none => Except.ok ""
         | some h => h)) ∧
    (∀ (single : String) (em : List EmittedTemplate)
        (files₀ : List (String × EmittedTemplate)) (funcs : FuncMap),
      disk (pathJoin ctx.out f) = DiskEntry.dirEnt →
      fileContribs set ctx single true em f ≠ [] →
      (processFromEmitted set disk ctx true single em files₀ funcs).result ≠ none) ∧
    (∀ (ap : Bool) (single : String) (em : List EmittedTemplate)
        (files₀ : List (String × EmittedTemplate)) (funcs : FuncMap),
      (processFromEmitted set disk ctx ap single em files₀ funcs).result = none →
      fileContribs set ctx single ap em f ≠ [] →
      ∃ s, set.LoadFile disk ctx f ap = Except.ok s ∧
        alistLookup (processFromEmitted set disk ctx ap single em files₀ funcs).files f =
          some ⟨emptyTpl, s ++ bufConcat (fileContribs set ctx single ap em f), f, []⟩) := by
  have hdir : disk (pathJoin ctx.out f) = DiskEntry.dirEnt →
      set.LoadFile disk ctx f true =
        Except.error (XErr.isDirectory (pathJoin ctx.out f)) := by
    intro h
    unfold TemplateSet.LoadFile
    rw [h]
    simp
  refine ⟨?_, hdir, ?_, ?_, ?_⟩
  · intro c h
    unfold TemplateSet.LoadFile
    rw [h]
    simp
  · intro ap h
    unfold TemplateSet.LoadFile
    rcases h with h | h
    · rw [h]
      simp
    · rw [h]
      simp
  · intro single em files₀ funcs hd hne hres
    obtain ⟨st', hm, _, _, _⟩ :=
      processFromEmitted_ok set disk ctx true single em files₀ funcs hres
    obtain ⟨s, hL, _⟩ := (mergeOrder_lookup set disk ctx single true
      (mergedEmitted set true em) (finalOrder set true) st' hm f).2 hne
    rw [hdir hd] at hL
    cases hL
  · intro ap single em files₀ funcs hres hne
    obtain ⟨st', hm, hfiles, _, _⟩ :=
      processFromEmitted_ok set disk ctx ap single em files₀ funcs hres
    obtain ⟨s, hL, hlk⟩ := (mergeOrder_lookup set disk ctx single ap
      (mergedEmitted set ap em) (finalOrder set ap) st' hm f).2 hne
    rw [hfiles]
    exact ⟨s, hL, hlk⟩

/-- C4, witness: the amended seeding cases at a concrete disk. -/
theorem claim4_seeding_witness :
    ((fun _ => DiskEntry.fileEnt "OLD" : Disk) (pathJoin baseCtx.out "f.go") =
      DiskEntry.fileEnt "OLD" ∧
     headerSet.LoadFile (fun _ => DiskEntry.fileEnt "OLD") baseCtx "f.go" true =
      Except.ok "OLD") ∧
    (dirDisk (pathJoin baseCtx.out "f.go") = DiskEntry.dirEnt ∧
     headerSet.LoadFile dirDisk baseCtx "f.go" true =
      Except.error (XErr.isDirectory (pathJoin baseCtx.out "f.go"))) :=
  ⟨⟨rfl, (claim4_seeding headerSet (fun _ => DiskEntry.fileEnt "OLD") baseCtx
      "f.go").1 "OLD" rfl⟩,
   ⟨rfl, (claim4_seeding headerSet dirDisk baseCtx "f.go").2.1 rfl⟩⟩

end Xo

namespace Xo

/-! ### C5: per-file isolation in the output pipeline -/

theorem Write_eq_post (reg : List (String × TemplateSet)) (ctx : Ctx) (wr : DiskW)
    (files : List (String × EmittedTemplate)) (set : TemplateSet)
    (p : String → Except XErr String)
    (hreg : alistLookup reg ctx.templateType = some set) (hpost : set.Post = some p) :
    Write reg ctx wr files =
      WriteFiles reg ctx wr (postFiles p (sortStrings (files.map Prod.fst)) files) := by
  unfold Write
  rw [hreg]
  show (match set.Post with
    | none => WriteFiles reg ctx wr files
    | some p =>
      WriteFiles reg ctx wr (postFiles p (sortStrings (files.map Prod.fst)) files)) =
    WriteFiles reg ctx wr (postFiles p (sortStrings (files.map Prod.fst)) files)
  rw [hpost]

theorem WriteFiles_eq (reg : List (String × TemplateSet)) (ctx : Ctx) (wr : DiskW)
    (files : List (String × EmittedTemplate)) (set : TemplateSet)
    (hreg : alistLookup reg ctx.templateType = some set) :
    WriteFiles reg ctx wr files =
      ⟨none,
        (writeFilesLoop wr ctx.out (sortStrings (files.map Prod.fst)) files []).1,
        (writeFilesLoop wr ctx.out (sortStrings (files.map Prod.fst)) files []).2⟩ := by
  unfold WriteFiles
  rw [hreg]

/-- C5.  For a registered target with a declared post-processing hook,
`Write` and `WriteFiles` never return a fatal error; each file's final
entry is its own entry transformed by its own hook outcome (a hook
failure appends `ErrPostFailed` to that file's error list and keeps the
pre-hook buffer) and then by its own write outcome (a write failure
appends the error to that file's list); and every file whose write
succeeds is persisted — all independent of what the hooks or writes of
the other files did. -/
theorem claim5_write_isolation (reg : List (String × TemplateSet)) (ctx : Ctx)
    (wr : DiskW) (files : List (String × EmittedTemplate)) (set : TemplateSet)
    (p : String → Except XErr String)
    (hreg : alistLookup reg ctx.templateType = some set)
    (hpost : set.Post = some p)
    (hnd : (files.map Prod.fst).Nodup) :
    (Write reg ctx wr files).result = none ∧
    (WriteFiles reg ctx wr files).result = none ∧
    ∀ (f : String) (fe : EmittedTemplate), alistLookup files f = some fe →
      (∀ e, p fe.buf = Except.error e →
        postEntry p f fe =
          ⟨fe.template, fe.buf, fe.file, fe.err ++ [XErr.postFailed f e]⟩) ∧
      alistLookup (Write reg ctx wr files).files f =
        some (writeEntry wr ctx.out f (postEntry p f fe)) ∧
      (wr (pathJoin ctx.out f) (postEntry p f fe).buf = none →
        (pathJoin ctx.out f, (postEntry p f fe).buf) ∈ (Write reg ctx wr files).written) := by
  have hnames : (postFiles p (sortStrings (files.map Prod.fst)) files).map Prod.fst =
      files.map Prod.fst := postFiles_keys p _ files
  have hW := Write_eq_post reg ctx wr files set p hreg hpost
  have hWF : WriteFiles reg ctx wr
      (postFiles p (sortStrings (files.map Prod.fst)) files) =
      ⟨none,
        (writeFilesLoop wr ctx.out (sortStrings (files.map Prod.fst))
          (postFiles p (sortStrings (files.map Prod.fst)) files) []).1,
        (writeFilesLoop wr ctx.out (sortStrings (files.map Prod.fst))
          (postFiles p (sortStrings (files.map Prod.fst)) files) []).2⟩ := by
    have := WriteFiles_eq reg ctx wr
      (postFiles p (sortStrings (files.map Prod.fst)) files) set hreg
    rwa [hnames] at this
  have hWF₀ : (WriteFiles reg ctx wr files).result = none := by
    rw [WriteFiles_eq reg ctx wr files set hreg]
  have hndN : (sortStrings (files.map Prod.fst)).Nodup :=
    ((sortStrings_perm _).nodup_iff).mpr hnd
  refine ⟨by rw [hW, hWF], hWF₀, ?_⟩
  intro f fe hlk
  have hfmem : f ∈ sortStrings (files.map Prod.fst) :=
    (sortStrings_perm _).mem_iff.mpr (alistLookup_some_mem_keys files f fe hlk)
  have hpostlk := postFiles_lookup_mem p (sortStrings (files.map Prod.fst)) files f fe
    hndN hfmem hlk
  have hspec := writeFilesLoop_spec wr ctx.out (sortStrings (files.map Prod.fst))
    (postFiles p (sortStrings (files.map Prod.fst)) files) [] f (postEntry p f fe)
    hndN hfmem hpostlk
  refine ⟨?_, ?_, ?_⟩
  · intro e he
    unfold postEntry
    rw [he]
  · rw [hW, hWF]
    exact hspec.1
  · intro hw
    rw [hW, hWF]
    exact hspec.2 hw

/-- A target with an identity post-processing hook, registered as "go". -/
def postSet : TemplateSet :=
  { baseSet with Post := some (fun b => Except.ok b) }

/-- C5, witness: one registered target with a hook, one file buffer. -/
theorem claim5_write_isolation_witness :
    (alistLookup [("go", postSet)] baseCtx.templateType = some postSet ∧
     postSet.Post = some (fun b => Except.ok b) ∧
     (([("f.go", (⟨emptyTpl, "X", "f.go", []⟩ : EmittedTemplate))].map
        Prod.fst).Nodup)) ∧
    (Write [("go", postSet)] baseCtx (fun _ _ => none)
      [("f.go", ⟨emptyTpl, "X", "f.go", []⟩)]).result = none := by
  refine ⟨⟨rfl, rfl, by decide⟩, ?_⟩
  exact (claim5_write_isolation [("go", postSet)] baseCtx (fun _ _ => none)
    [("f.go", ⟨emptyTpl, "X", "f.go", []⟩)] postSet (fun b => Except.ok b)
    rfl rfl (by decide)).1

end Xo

namespace Xo

/-! ### C6: the function environment -/

theorem AddCustomFuncs_some (set : TemplateSet) (fm : FuncMap) (s : FuncsScript)
    (h : set.funcsScript = some s) :
    set.AddCustomFuncs fm =
      (match s.evalSrc with
       | some e => Except.error (XErr.evalTplFailed e)
       | none =>
         match s.evalInit with
         | some e => Except.error (XErr.evalInitFailed e)
         | none =>
           if s.goodShape = false then Except.error XErr.initBadSignature
           else
             match s.initRes with
             | Except.error e => Except.error (XErr.initFailed e)
             | Except.ok m => Except.ok (fmMerge fm m)) := by
  unfold TemplateSet.AddCustomFuncs
  rw [h]

/-- C6.  Building the function environment: an absent `funcs.go.tpl`
resource leaves the environment untouched; a present one fails exactly
when the script does not evaluate, `funcs.Init` is missing, `Init` has
the wrong signature, or `Init` itself errors; on success every callable
`Init` returned is merged in (shadowing same-named entries, leaving
others); and a funcs-build failure makes the run fail with the wrapping
error before the generation logic has emitted anything — the emitted
list and file map are untouched. -/
theorem claim6_custom_funcs (set : TemplateSet) (fm : FuncMap) :
    (set.funcsScript = none → set.AddCustomFuncs fm = Except.ok fm) ∧
    (∀ s, set.funcsScript = some s →
      ((∃ e, set.AddCustomFuncs fm = Except.error e) ↔
        (s.evalSrc ≠ none ∨ s.evalInit ≠ none ∨ s.goodShape = false ∨
          ∃ e, s.initRes = Except.error e)) ∧
      (∀ m, s.evalSrc = none → s.evalInit = none → s.goodShape = true →
        s.initRes = Except.ok m →
        set.AddCustomFuncs fm = Except.ok (fmMerge fm m) ∧
        ((m.map Prod.fst).Nodup →
          ∀ k v, (k, v) ∈ m → alistLookup (fmMerge fm m) k = some v) ∧
        (∀ k, k ∉ m.map Prod.fst →
          alistLookup (fmMerge fm m) k = alistLookup fm k))) ∧
    (∀ (disk : Disk) (ctx₀ : Ctx) (ap : Bool) (single : String)
        (gen : List (Tpl × Except XErr String)) (st₀ : RunState) (e : XErr),
      set.BuildFuncs = Except.error e →
      processSet set disk ctx₀ ap single gen st₀ =
        ⟨some (XErr.funcsWrap e), st₀.emitted, st₀.files, [], none⟩) := by
  refine ⟨?_, ?_, ?_⟩
  · intro h
    unfold TemplateSet.AddCustomFuncs
    rw [h]
  · intro s hs
    constructor
    · rw [AddCustomFuncs_some set fm s hs]
      rcases s with ⟨es, ei, gs, ir⟩
      rcases es with _ | e₁
      · rcases ei with _ | e₂
        · rcases gs with _ | _
          · simp
          · rcases ir with e₃ | m
            · simp
            · simp
        · simp
      · simp
    · intro m h1 h2 h3 h4
      refine ⟨?_, fun hmnd k v hkv => fmMerge_lookup_mem m fm k v hmnd hkv,
        fun k hk => fmMerge_lookup_not_mem m fm k hk⟩
      rw [AddCustomFuncs_some set fm s hs, h1, h2, h4]
      simp [h3]
  · intro disk ctx₀ ap single gen st₀ e he
    exact processSet_funcs_error set disk ctx₀ ap single gen st₀ e he

/-- A well-formed script returning one callable named "f". -/
def goodScript : FuncsScript := ⟨none, none, true, Except.ok [("f", 1)]⟩

/-- `baseSet` shipping `goodScript` as its `funcs.go.tpl`. -/
def scriptSet : TemplateSet :=
  { baseSet with funcsScript := some goodScript }

/-- C6, witness: the well-formed script's callables are merged into an
empty baseline. -/
theorem claim6_custom_funcs_witness :
    (scriptSet.funcsScript = some goodScript ∧ goodScript.evalSrc = none ∧
     goodScript.evalInit = none ∧ goodScript.goodShape = true ∧
     goodScript.initRes = Except.ok [("f", 1)]) ∧
    scriptSet.AddCustomFuncs [] = Except.ok (fmMerge [] [("f", 1)]) :=
  ⟨⟨rfl, rfl, rfl, rfl, rfl⟩,
    (((claim6_custom_funcs scriptSet []).2.1 goodScript rfl).2 [("f", 1)]
      rfl rfl rfl rfl).1⟩

/-! ### C7: determinism -/

/-- C7.  One run of `Process` followed by `Write` is a pure function of
the registry, the file system, the write effects, the run context, the
mode flags, the generation logic's emissions and the starting run state:
two runs from equal inputs produce equal outputs, byte for byte.  (The
model is deterministic exactly because the source sorts every map
iteration and `sortEmitted` is a fixed procedure.) -/
theorem claim7_deterministic (i₁ i₂ : RunInputs) (h : i₁ = i₂) :
    runPipeline i₁ = runPipeline i₂ := by
  rw [h]

/-- A complete concrete run input. -/
def runIn : RunInputs :=
  ⟨[("go", baseSet)], emptyDisk, fun _ _ => none, baseCtx, false, "", genT, ⟨[], []⟩⟩

/-- C7, witness. -/
theorem claim7_deterministic_witness :
    runIn = runIn ∧ runPipeline runIn = runPipeline runIn :=
  ⟨rfl, claim7_deterministic runIn runIn rfl⟩

/-! ### C8: unknown targets -/

/-- C8.  `Process` on a target name with no registered configuration
returns the "unknown template" error naming that target, leaves the
emitted list and the file-buffer map exactly as they were, performs no
read of any output file (empty read trace), and — since the model's only
write effects live in `Write`/`WriteFiles`, which `Process` never
invokes — writes nothing. -/
theorem claim8_unknown_target (reg : List (String × TemplateSet)) (disk : Disk)
    (ctx : Ctx) (ap : Bool) (single : String)
    (gen : List (Tpl × Except XErr String)) (st₀ : RunState)
    (h : alistLookup reg ctx.templateType = none) :
    Process reg disk ctx ap single gen st₀ =
      ⟨some (XErr.unknownTemplate ctx.templateType), st₀.emitted, st₀.files, [], none⟩ := by
  unfold Process
  rw [h]

/-- C8, witness: the empty registry. -/
theorem claim8_unknown_target_witness :
    alistLookup ([] : List (String × TemplateSet)) baseCtx.templateType = none ∧
    Process [] emptyDisk baseCtx false "" genT ⟨[], []⟩ =
      ⟨some (XErr.unknownTemplate baseCtx.templateType), [], [], [], none⟩ :=
  ⟨rfl, claim8_unknown_target [] emptyDisk baseCtx false "" genT ⟨[], []⟩ rfl⟩

end Xo

namespace Xo

/-! ### C9: `Flags` versus `For` -/

/-- A registered target that declares capability list ["schema"] and one
extra flag. -/
def flagSet9 : TemplateSet :=
  { baseSet with For := some ["schema"], Flags := [⟨"k"⟩] }

/-- The one-target registry used for the `Flags` counterexample. -/
def reg9 : List (String × TemplateSet) := [("a", flagSet9)]

/-- C9, counterexample.  For the capability "dump", `For` declares the
configuration applicable (the "dump" special case), so the claimed union
contains its flag — but `Flags` skips it, because `Flags` re-implements
the test without the "dump" case (`set.For != nil && !contains(...)`).
The claimed union and the computed one differ. -/
theorem claim9_counterexample :
    Flags reg9 "dump" ≠ flagsPerFor reg9 "dump" ∧
    For reg9 "a" "dump" = true ∧
    Flags reg9 "dump" = [] ∧
    flagsPerFor reg9 "dump" = [⟨"a", "k", ⟨"k"⟩⟩] := by
  decide

/-- C9, amended.  `Flags` returns the union, over registered
configurations in sorted name order, of the declared flags of those that
declare no capability list or whose list contains the capability — with
no special case for "dump" — each tagged with its owning target name. -/
theorem claim9_flags (reg : List (String × TemplateSet)) (name : String) :
    Flags reg name = flagsPerApplies reg name := by
  unfold Flags flagsPerApplies
  apply foldlCongr
  intro acc typ
  rcases hl : alistLookup reg typ with _ | set
  · rfl
  · rcases hf : set.For with _ | l
    · simp [appliesTo, hf]
    · by_cases hc : contains l name = true
      · simp [appliesTo, hf, hc]
      · simp [appliesTo, hf, hc]

/-! ### C10: fragments outside the processing order -/

theorem runEmits_base (gen : List (Tpl × Except XErr String)) :
    ∀ em, runEmits gen em = (em ++ (runEmits gen []).1, (runEmits gen []).2) := by
  induction gen with
  | nil => intro em; simp [runEmits]
  | cons p rest ih =>
    intro em
    rcases p with ⟨tpl, out⟩
    cases out with
    | error e => simp [runEmits]
    | ok b =>
      show runEmits rest (em ++ [(⟨tpl, b, "", []⟩ : EmittedTemplate)]) = _
      rw [ih (em ++ [(⟨tpl, b, "", []⟩ : EmittedTemplate)])]
      have hr : runEmits ((tpl, Except.ok b) :: rest) [] =
          runEmits rest [(⟨tpl, b, "", []⟩ : EmittedTemplate)] := rfl
      rw [hr, ih [(⟨tpl, b, "", []⟩ : EmittedTemplate)]]
      simp

theorem pkgOutcome_base (set : TemplateSet) (ap : Bool)
    (sorted : List EmittedTemplate) :
    pkgOutcome set ap sorted =
      (sorted ++ (pkgOutcome set ap []).1, (pkgOutcome set ap []).2) := by
  unfold pkgOutcome
  rcases ap with _ | _
  · rcases set.PackageTemplates with _ | pts
    · simp
    · exact runEmits_base pts sorted
  · simp

theorem processFromEmitted_pkg_err (set : TemplateSet) (disk : Disk) (ctx : Ctx)
    (ap : Bool) (single : String) (em : List EmittedTemplate)
    (files₀ : List (String × EmittedTemplate)) (funcs : FuncMap)
    (em₂ : List EmittedTemplate) (e : XErr)
    (hp : pkgOutcome set ap (sortEmitted em) = (em₂, some e)) :
    processFromEmitted set disk ctx ap single em files₀ funcs =
      ⟨some e, em₂, files₀, [], some funcs⟩ := by
  unfold processFromEmitted
  rw [hp]

theorem processFromEmitted_pkg_ok (set : TemplateSet) (disk : Disk) (ctx : Ctx)
    (ap : Bool) (single : String) (em : List EmittedTemplate)
    (files₀ : List (String × EmittedTemplate)) (funcs : FuncMap)
    (em₂ : List EmittedTemplate)
    (hp : pkgOutcome set ap (sortEmitted em) = (em₂, none)) :
    processFromEmitted set disk ctx ap single em files₀ funcs =
      ⟨(mergeOrder set disk ctx single ap em₂ (finalOrder set ap) ⟨[], []⟩).2,
        em₂,
        (mergeOrder set disk ctx single ap em₂ (finalOrder set ap) ⟨[], []⟩).1.files,
        (mergeOrder set disk ctx single ap em₂ (finalOrder set ap) ⟨[], []⟩).1.reads,
        some funcs⟩ := by
  unfold processFromEmitted
  rw [hp]

theorem filter_filter_names (em : List EmittedTemplate) (n : String)
    (ord : List String) (hn : n ∈ ord) :
    (em.filter (fun t => contains ord t.template.template)).filter
      (fun t => t.template.template == n) =
    em.filter (fun t => t.template.template == n) := by
  induction em with
  | nil => rfl
  | cons t ts ih =>
    by_cases hn' : (t.template.template == n) = true
    · have hc : contains ord t.template.template = true := by
        have : t.template.template = n := by simpa using hn'
        rw [this]
        exact (contains_iff_mem _ _).mpr hn
      simp [List.filter_cons, hn', hc, ih]
    · by_cases hc : contains ord t.template.template = true
      · simp [List.filter_cons, hn', hc, ih]
      · simp [List.filter_cons, hn', hc, ih]

/-- C10.  Fragments whose template name does not occur in the final
processing order are silently discarded: dropping all of them from the
emitted list changes neither the run's result, nor any file buffer, nor
the reads performed — their bytes reach no buffer and no error is
reported for them. -/
theorem claim10_discarded (set : TemplateSet) (disk : Disk) (ctx : Ctx) (ap : Bool)
    (single : String) (em : List EmittedTemplate)
    (files₀ : List (String × EmittedTemplate)) (funcs : FuncMap) :
    (processFromEmitted set disk ctx ap single em files₀ funcs).result =
      (processFromEmitted set disk ctx ap single
        (em.filter (fun t => contains (finalOrder set ap) t.template.template))
        files₀ funcs).result ∧
    (processFromEmitted set disk ctx ap single em files₀ funcs).files =
      (processFromEmitted set disk ctx ap single
        (em.filter (fun t => contains (finalOrder set ap) t.template.template))
        files₀ funcs).files ∧
    (processFromEmitted set disk ctx ap single em files₀ funcs).reads =
      (processFromEmitted set disk ctx ap single
        (em.filter (fun t => contains (finalOrder set ap) t.template.template))
        files₀ funcs).reads := by
  have hfil : sortEmitted (em.filter
      (fun t => contains (finalOrder set ap) t.template.template)) =
      (sortEmitted em).filter
        (fun t => contains (finalOrder set ap) t.template.template) :=
    (sortEmitted_filter _ em).symm
  have h₁ := pkgOutcome_base set ap (sortEmitted em)
  have h₂ := pkgOutcome_base set ap (sortEmitted (em.filter
    (fun t => contains (finalOrder set ap) t.template.template)))
  rcases he : (pkgOutcome set ap []).2 with _ | e
  · have e₁ := processFromEmitted_pkg_ok set disk ctx ap single em files₀ funcs
      (sortEmitted em ++ (pkgOutcome set ap []).1) (by rw [h₁, he])
    have e₂ := processFromEmitted_pkg_ok set disk ctx ap single
      (em.filter (fun t => contains (finalOrder set ap) t.template.template))
      files₀ funcs
      (sortEmitted (em.filter
        (fun t => contains (finalOrder set ap) t.template.template)) ++
        (pkgOutcome set ap []).1)
      (by rw [h₂, he])
    have hm : mergeOrder set disk ctx single ap
        (sortEmitted em ++ (pkgOutcome set ap []).1) (finalOrder set ap) ⟨[], []⟩ =
        mergeOrder set disk ctx single ap
          (sortEmitted (em.filter
            (fun t => contains (finalOrder set ap) t.template.template)) ++
            (pkgOutcome set ap []).1) (finalOrder set ap) ⟨[], []⟩ := by
      apply Eq.symm
      apply mergeOrder_congr_emitted
      intro n hn
      rw [List.filter_append, List.filter_append, hfil,
        filter_filter_names (sortEmitted em) n (finalOrder set ap) hn]
    rw [e₁, e₂, hm]
    exact ⟨rfl, rfl, rfl⟩
  · have e₁ := processFromEmitted_pkg_err set disk ctx ap single em files₀ funcs
      (sortEmitted em ++ (pkgOutcome set ap []).1) e (by rw [h₁, he])
    have e₂ := processFromEmitted_pkg_err set disk ctx ap single
      (em.filter (fun t => contains (finalOrder set ap) t.template.template))
      files₀ funcs
      (sortEmitted (em.filter
        (fun t => contains (finalOrder set ap) t.template.template)) ++
        (pkgOutcome set ap []).1) e (by rw [h₂, he])
    rw [e₁, e₂]
    exact ⟨rfl, rfl, rfl⟩

end Xo
